import Mathlib

/-!
# Verification of the maestro supervisor core

Shallow embedding of the maestro repository's core components, with theorems
settling the frozen claims about them.

* `Maestro.Utf8` — the streaming UTF-8 decoder of
  `src-tauri/src/core/process_manager.rs` (`Utf8Decoder`), together with a
  model of Rust's `std::str::from_utf8` validation result
  (`valid_up_to` / `error_len`) and of `String::from_utf8_lossy`.
* `Maestro.Mcp` — the `.mcp.json` merge/removal logic of
  `src-tauri/src/core/mcp_config_writer.rs`.
* `Maestro.Reader` — the PTY reader thread's per-chunk reaction from
  `ProcessManager::spawn_shell`, against tokio's documented
  `blocking_send` semantics.
* `Maestro.Sidecar` — the sidecar's `tools/list` response from
  `maestro-mcp-server/src/mcp_protocol.rs`.
* `Maestro.Status` — the HTTP status ingress `handle_status` of
  `src-tauri/src/core/status_server.rs`.
* `Maestro.Pty` — session id allocation, `kill_session`, `write_stdin`,
  `resize_pty` of `src-tauri/src/core/process_manager.rs`.
* `Maestro.Worktree` — `prepare_worktree_inner` of
  `src-tauri/src/commands/worktree.rs`.
-/

namespace Maestro

namespace Utf8

/-- Bytes are modelled as natural numbers; well-formed inputs have values
below 256, but all definitions are total on `Nat`. -/
abbrev Byte := Nat

/-- A UTF-8 continuation byte, `0x80 ..= 0xBF`
(Rust `utf8_is_cont_byte`). -/
def isCont (b : Byte) : Bool := 0x80 ≤ b && b ≤ 0xBF

/-- Valid range of the second byte of a multi-byte sequence, given the lead
byte.  Mirrors the per-lead second-byte table of Rust's
`core::str::validations::run_utf8_validation`: lead `0xE0` requires
`0xA0..=0xBF`, `0xED` requires `0x80..=0x9F`, `0xF0` requires `0x90..=0xBF`,
`0xF4` requires `0x80..=0x8F`, and every other multi-byte lead requires an
ordinary continuation byte. -/
def validSecond (b c : Byte) : Bool :=
  if b = 0xE0 then 0xA0 ≤ c && c ≤ 0xBF
  else if b = 0xED then 0x80 ≤ c && c ≤ 0x9F
  else if b = 0xF0 then 0x90 ≤ c && c ≤ 0xBF
  else if b = 0xF4 then 0x80 ≤ c && c ≤ 0x8F
  else isCont c

/-- Classification of the first UTF-8 unit of a byte list, following Rust's
validator: either the list is empty (`eof`), starts with a complete scalar
value of `n` bytes decoding to code point `cp` (`char`), starts with an
incomplete-but-so-far-valid sequence that runs off the end of the input
(`trunc`, Rust `error_len = None`), or starts with a maximal invalid
subsequence of `k` bytes (`bad k`, Rust `error_len = Some(k)`). -/
inductive Head where
  | eof
  | char (cp : Nat) (n : Nat)
  | trunc
  | bad (k : Nat)
deriving DecidableEq, Repr

/-- Classify the first UTF-8 unit of a byte list.  Faithful to one iteration
of Rust's `run_utf8_validation` loop, including the maximal-subpart
`error_len` values `Some(1)`, `Some(2)`, `Some(3)`. -/
def classifyHead : List Byte → Head
  | [] => .eof
  | b :: rest =>
    if b < 0x80 then .char b 1
    else if b < 0xC2 then .bad 1
    else if b ≤ 0xDF then
      match rest with
      | [] => .trunc
      | c1 :: _ =>
        if isCont c1 then .char ((b - 0xC0) * 0x40 + (c1 - 0x80)) 2 else .bad 1
    else if b ≤ 0xEF then
      match rest with
      | [] => .trunc
      | c1 :: rest1 =>
        if validSecond b c1 then
          match rest1 with
          | [] => .trunc
          | c2 :: _ =>
            if isCont c2 then
              .char ((b - 0xE0) * 0x1000 + (c1 - 0x80) * 0x40 + (c2 - 0x80)) 3
            else .bad 2
        else .bad 1
    else if b ≤ 0xF4 then
      match rest with
      | [] => .trunc
      | c1 :: rest1 =>
        if validSecond b c1 then
          match rest1 with
          | [] => .trunc
          | c2 :: rest2 =>
            if isCont c2 then
              match rest2 with
              | [] => .trunc
              | c3 :: _ =>
                if isCont c3 then
                  .char ((b - 0xF0) * 0x40000 + (c1 - 0x80) * 0x1000 +
                    (c2 - 0x80) * 0x40 + (c3 - 0x80)) 4
                else .bad 3
            else .bad 2
        else .bad 1
    else .bad 1

/-- Fuelled worker for `utf8Validate`; the fuel strictly exceeds the number
of bytes still to scan, so it never runs out on the seeds used below. -/
def validateFuel : Nat → List Byte → Option (Nat × Option Nat)
  | 0, _ => none
  | f + 1, l =>
    match classifyHead l with
    | .eof => none
    | .char _ n => (validateFuel f (l.drop n)).map (fun p => (p.1 + n, p.2))
    | .trunc => some (0, none)
    | .bad k => some (0, some k)

/-- Model of Rust's `std::str::from_utf8` outcome on a byte slice:
`none` when the slice is valid UTF-8, otherwise
`some (valid_up_to, error_len)` for the first error, with `error_len = none`
for an incomplete sequence at the end of the input and `error_len = some k`
for a maximal invalid subsequence of `k` bytes. -/
def utf8Validate (l : List Byte) : Option (Nat × Option Nat) :=
  validateFuel l.length l

/-- Fuelled worker for `decodeChars`. -/
def decodeCharsFuel : Nat → List Byte → List Nat
  | 0, _ => []
  | f + 1, l =>
    match classifyHead l with
    | .char cp n => cp :: decodeCharsFuel f (l.drop n)
    | _ => []

/-- Decode a byte list into code points, reading whole scalar values from the
front until the input is exhausted or its head is not a complete scalar.
On valid UTF-8 this is exactly the decoding Rust's `String::from_utf8`
produces. -/
def decodeChars (l : List Byte) : List Nat :=
  decodeCharsFuel l.length l

/-- Fuelled worker for `fromUtf8Lossy`. -/
def lossyFuel : Nat → List Byte → List Nat
  | 0, _ => []
  | f + 1, l =>
    match classifyHead l with
    | .eof => []
    | .char cp n => cp :: lossyFuel f (l.drop n)
    | .trunc => [0xFFFD]
    | .bad k => 0xFFFD :: lossyFuel f (l.drop k)

/-- Model of Rust's `String::from_utf8_lossy` at the code-point level:
scalar values decode to themselves, every maximal invalid subsequence
becomes one `U+FFFD` (`0xFFFD`), and an incomplete sequence at the end of
the input becomes one `U+FFFD`. -/
def fromUtf8Lossy (l : List Byte) : List Nat :=
  lossyFuel l.length l

/-- `Utf8Decoder` of `process_manager.rs`: the stateful streaming decoder,
whose only state is the buffer of incomplete trailing bytes. -/
structure Utf8Decoder where
  incomplete : List Byte
deriving DecidableEq, Repr

/-- `Utf8Decoder::new`: a decoder with an empty buffer. -/
def Utf8Decoder.new : Utf8Decoder := ⟨[]⟩

/-- `Utf8Decoder::find_valid_boundary`: the byte index up to which `data` is
consumed by one `decode` call.  Matches the source's match on the
`std::str::from_utf8` result: the full length when valid, `valid_up_to` for
an incomplete trailing sequence (buffer it), and `valid_up_to + error_len`
for an invalid byte (skip it and continue). -/
def find_valid_boundary (data : List Byte) : Nat :=
  match utf8Validate data with
  | none => data.length
  | some (valid, none) => valid
  | some (valid, some elen) => valid + elen

/-- `Utf8Decoder::decode`: prepend the buffered bytes, find the last valid
boundary, buffer the bytes past it, and return the decoded prefix.  The
source computes the returned string as
`String::from_utf8(data[..valid_up_to]).unwrap_or_else(|_| from_utf8_lossy)`,
i.e. the lossy decoding of `data[..valid_up_to]` in every case, which is
what `fromUtf8Lossy` models.  Returns the emitted code points and the
decoder's next state. -/
def Utf8Decoder.decode (d : Utf8Decoder) (input : List Byte) :
    List Nat × Utf8Decoder :=
  let data := d.incomplete ++ input
  let valid_up_to := find_valid_boundary data
  (fromUtf8Lossy (data.take valid_up_to), ⟨data.drop valid_up_to⟩)

/-- Feed a sequence of byte chunks through the decoder, returning the
concatenation of all emitted code points and the final decoder state. -/
def decodeStream : Utf8Decoder → List (List Byte) → List Nat × Utf8Decoder
  | d, [] => ([], d)
  | d, c :: cs =>
    let r := d.decode c
    let rest := decodeStream r.2 cs
    (r.1 ++ rest.1, rest.2)

/-- A byte that can begin a UTF-8 scalar value (ASCII or a lead byte). -/
def isLead (b : Byte) : Bool := b < 0x80 || (0xC2 ≤ b && b ≤ 0xF4)

/-- Fuelled worker for `specReplacementDecode`. -/
def specDecodeFuel : Nat → List Byte → List Nat
  | 0, _ => []
  | f + 1, l =>
    match classifyHead l with
    | .eof => []
    | .char cp n => cp :: specDecodeFuel f (l.drop n)
    | .trunc => [0xFFFD]
    | .bad _ =>
      0xFFFD :: specDecodeFuel f ((l.drop 1).dropWhile (fun b => !isLead b))

/-- The claim's reference decoder, following the spec's words rather than the
source: the UTF-8 decoding of the byte sequence "with each invalid byte
replaced by a one-byte substitution and resynchronization at the next valid
leading byte" — on an invalid byte, emit one `U+FFFD` and resume decoding at
the next byte that can begin a scalar value. -/
def specReplacementDecode (l : List Byte) : List Nat :=
  specDecodeFuel l.length l

end Utf8

/-- Model of Rust's `str::starts_with` (whole-character prefix test). -/
def strStartsWith (s p : String) : Bool := p.data.isPrefixOf s.data

/-- Model of Rust's `str::contains(char)`. -/
def strContains (s : String) (c : Char) : Bool := s.data.contains c

/-- Model of Rust's `str::is_empty`. -/
def strIsEmpty (s : String) : Bool := s.data.isEmpty

/-- Everything after the first occurrence of character `c`, if `c` occurs:
Rust's `s[s.find(c).unwrap() + 1 ..]`. -/
def afterFirst (c : Char) : List Char → Option (List Char)
  | [] => none
  | d :: t => if d = c then some t else afterFirst c t

/-- `HashMap::insert` modelled on an association list: replace the value
under an existing key, otherwise append the new binding.  Used by both the
config writer's server map and the status server's pending buffer. -/
def assocInsert {α β : Type} [DecidableEq α] (m : List (α × β)) (k : α) (v : β) :
    List (α × β) :=
  if (m.lookup k).isSome then
    m.map (fun p => if p.1 = k then (k, v) else p)
  else m ++ [(k, v)]

namespace Mcp

/-- JSON values, as manipulated by `mcp_config_writer.rs` (serde_json).
Objects are association lists of fields. -/
inductive Json where
  | null
  | bool (b : Bool)
  | num (n : Int)
  | str (s : String)
  | arr (xs : List Json)
  | obj (fields : List (String × Json))
deriving BEq, Repr

/-- Field access on a JSON object (`Value::get`). -/
def Json.get (j : Json) (k : String) : Option Json :=
  match j with
  | .obj fields => fields.lookup k
  | _ => none

/-- View a JSON value as an object (`Value::as_object`). -/
def Json.getObj : Json → Option (List (String × Json))
  | .obj fields => some fields
  | _ => none

/-- View a JSON value as a string (`Value::as_str`). -/
def Json.getStr : Json → Option String
  | .str s => some s
  | _ => none

/-- View a JSON value as an array (`Value::as_array`). -/
def Json.getArr : Json → Option (List Json)
  | .arr xs => some xs
  | _ => none

/-- The top-level `mcpServers` map of a `.mcp.json` file. -/
abbrev ServerMap := List (String × Json)

/-- `should_remove_server` of `mcp_config_writer.rs`: whether a server entry
is removed when updating the config.  Removes the managed `maestro-status`
entry and the legacy `maestro-status-*`, `maestro-*` and bare `maestro`
entries.  The config and session id parameters are unused, as in the
source. -/
def should_remove_server (name : String) (_config : Json) (_session_id : Nat) : Bool :=
  if name == "maestro-status" then true
  else if strStartsWith name "maestro-status-" then true
  else if strStartsWith name "maestro-" && name != "maestro-status" then true
  else if name == "maestro" then true
  else false

/-- `HashMap::insert` on the server map. -/
def insertServer (m : ServerMap) (name : String) (config : Json) : ServerMap :=
  assocInsert m name config

/-- `merge_with_existing` of `mcp_config_writer.rs`, at the level of the
`mcpServers` map it produces.  `existing` is the parsed content of the
`.mcp.json` file (`none` when the file is absent; a parse failure makes
the source abort the write without touching the file).  Keeps every
existing server for which `should_remove_server` is false, then inserts
the new servers for this session. -/
def merge_with_existing (existing : Option Json) (new_servers : ServerMap)
    (session_id : Nat) : ServerMap :=
  let final0 : ServerMap :=
    match existing with
    | some cfg =>
      match (cfg.get "mcpServers").bind Json.getObj with
      | some obj => obj.filter (fun p => !(should_remove_server p.1 p.2 session_id))
      | none => []
    | none => []
  new_servers.foldl (fun acc p => insertServer acc p.1 p.2) final0

/-- The server-map transformation performed by `remove_session_mcp_config`:
remove the `maestro-status` entry, then every legacy key that starts with
`maestro-status-` or `maestro-` or equals `maestro`. -/
def remove_servers (servers : ServerMap) : ServerMap :=
  let afterStatus := servers.filter (fun p => p.1 != "maestro-status")
  afterStatus.filter (fun p =>
    !(strStartsWith p.1 "maestro-status-" || strStartsWith p.1 "maestro-" ||
      p.1 == "maestro"))

end Mcp

namespace Reader

/-- Observable state of the bounded 256-slot output channel at the moment the
reader thread has read a chunk. -/
inductive ChannelState where
  | hasCapacity
  | full
  | closed
deriving DecidableEq, Repr

/-- Outcome of `tokio::sync::mpsc::Sender::blocking_send`. -/
inductive SendOutcome where
  | sent
  | blockedUntilSpace
  | errClosed
deriving DecidableEq, Repr

/-- Modelled from tokio's documented `blocking_send` semantics: the call
blocks the thread while the channel is full and returns `Err` only when the
channel is closed (the receiver was dropped); it never fails on a merely
full channel. -/
def blocking_send : ChannelState → SendOutcome
  | .hasCapacity => .sent
  | .full => .blockedUntilSpace
  | .closed => .errClosed

/-- What the reader thread's loop body does with the chunk it just read. -/
inductive ReaderAction where
  | forwardChunkAndContinue
  | blockOnSend
  | dropChunkAndContinue
  | logDropAndBreak
deriving DecidableEq, Repr

/-- The per-chunk reaction of the PTY reader thread in
`ProcessManager::spawn_shell`: it calls `tx.blocking_send(buf[..n].to_vec())`
and, if that returns an error, logs `dropping {n} bytes` and breaks out of
the read loop. -/
def readerChunkStep (st : ChannelState) : ReaderAction :=
  match blocking_send st with
  | .sent => .forwardChunkAndContinue
  | .blockedUntilSpace => .blockOnSend
  | .errClosed => .logDropAndBreak

end Reader

namespace Sidecar

open Mcp

/-- `McpServer::handle_tools_list` of `maestro-mcp-server/src/mcp_protocol.rs`:
the JSON result of a `tools/list` request.  The prose `description` strings
of the source are elided; the structural fields (tool name, schema
properties, enum, required list) are verbatim. -/
def handle_tools_list : Json :=
  .obj [("tools", .arr [
    .obj [
      ("name", .str "maestro_status"),
      ("inputSchema", .obj [
        ("type", .str "object"),
        ("properties", .obj [
          ("state", .obj [
            ("type", .str "string"),
            ("enum", .arr [.str "idle", .str "working", .str "needs_input",
              .str "finished", .str "error"])]),
          ("message", .obj [("type", .str "string")]),
          ("needsInputPrompt", .obj [("type", .str "string")])]),
        ("required", .arr [.str "state", .str "message"])])]])]

/-- The list of tools in the `tools/list` response. -/
def toolsOf (response : Json) : List Json :=
  ((response.get "tools").bind Json.getArr).getD []

/-- The name of the first advertised tool, if any. -/
def firstToolName (response : Json) : Option String :=
  match toolsOf response with
  | tool :: _ => (tool.get "name").bind Json.getStr
  | [] => none

/-- The first advertised tool, if any. -/
def firstTool (response : Json) : Option Json :=
  (toolsOf response).head?

/-- The input schema of the first advertised tool. -/
def firstToolSchema (response : Json) : Option Json :=
  (firstTool response).bind (fun t => t.get "inputSchema")

end Sidecar

namespace Status

/-- `StatusRequest` of `status_server.rs`: the JSON body of a status POST. -/
structure StatusRequest where
  session_id : Nat
  instance_id : String
  state : String
  message : String
  needs_input_prompt : Option String
  timestamp : String
deriving DecidableEq, Repr

/-- `SessionStatusPayload` of `status_server.rs`: the event payload emitted
to the frontend. -/
structure SessionStatusPayload where
  session_id : Nat
  project_path : String
  status : String
  message : String
  needs_input_prompt : Option String
deriving DecidableEq, Repr

/-- `MAX_PENDING_STATUSES`: bound on the pending-status buffer. -/
def MAX_PENDING_STATUSES : Nat := 100

/-- `ServerState` of `status_server.rs`: instance id, the session-to-project
routing map, and the pending-status buffer (both keyed by session id). -/
structure ServerState where
  instance_id : String
  session_projects : List (Nat × String)
  pending_statuses : List (Nat × StatusRequest)
deriving DecidableEq, Repr

/-- The state-string mapping inside `emit_status`: known MCP states map to
canonical status names, anything else maps to `Unknown`. -/
def statusOfState (state : String) : String :=
  if state = "idle" then "Idle"
  else if state = "working" then "Working"
  else if state = "needs_input" then "NeedsInput"
  else if state = "finished" then "Done"
  else if state = "error" then "Error"
  else "Unknown"

/-- `emit_status` of `status_server.rs`: build the event payload emitted for
a status request routed to a project. -/
def emit_status (session_id : Nat) (project_path : String)
    (payload : StatusRequest) : SessionStatusPayload :=
  { session_id := session_id
    project_path := project_path
    status := statusOfState payload.state
    message := payload.message
    needs_input_prompt := payload.needs_input_prompt }

/-- `HashMap::insert` on the pending buffer. -/
def insertPending (m : List (Nat × StatusRequest)) (k : Nat) (v : StatusRequest) :
    List (Nat × StatusRequest) :=
  assocInsert m k v

/-- `handle_status` of `status_server.rs` as a pure transition: given the
server state and a request, returns the HTTP status code, the list of
emitted events, and the new server state.  Wrong instance id → 403, no
event, state untouched.  Registered session → 200 and one event.
Unregistered session → 202, buffering the request only while the buffer
holds fewer than `MAX_PENDING_STATUSES` entries. -/
def handle_status (st : ServerState) (payload : StatusRequest) :
    Nat × List SessionStatusPayload × ServerState :=
  if payload.instance_id ≠ st.instance_id then (403, [], st)
  else
    match st.session_projects.lookup payload.session_id with
    | some project_path =>
      (200, [emit_status payload.session_id project_path payload], st)
    | none =>
      if st.pending_statuses.length < MAX_PENDING_STATUSES then
        (202, [],
          { st with pending_statuses :=
              insertPending st.pending_statuses payload.session_id payload })
      else (202, [], st)

end Status

namespace Pty

/-- `PtyErrorCode` of `core/error.rs`. -/
inductive PtyErrorCode where
  | SpawnFailed
  | SessionNotFound
  | WriteFailed
  | ResizeFailed
  | KillFailed
  | IdOverflow
deriving DecidableEq, Repr

/-- `PtyError` of `core/error.rs`: machine-readable code plus message. -/
structure PtyError where
  code : PtyErrorCode
  message : String
deriving DecidableEq, Repr

/-- `PtyError::spawn_failed`. -/
def PtyError.spawn_failed (msg : String) : PtyError := ⟨.SpawnFailed, msg⟩

/-- `PtyError::session_not_found`. -/
def PtyError.session_not_found (id : Nat) : PtyError :=
  ⟨.SessionNotFound, "Session " ++ toString id ++ " not found"⟩

/-- `PtyError::write_failed`. -/
def PtyError.write_failed (msg : String) : PtyError := ⟨.WriteFailed, msg⟩

/-- `PtyError::resize_failed`. -/
def PtyError.resize_failed (msg : String) : PtyError := ⟨.ResizeFailed, msg⟩

/-- `PtyError::id_overflow`. -/
def PtyError.id_overflow : PtyError :=
  ⟨.IdOverflow, "Session ID counter overflowed u32::MAX"⟩

/-- The data of a `PtySession` relevant to signalling; the writer, master,
shutdown and reader-handle capabilities are represented by the effect
traces below. -/
structure PtySession where
  child_pid : Int
  pgid : Int
deriving DecidableEq, Repr

/-- `u32::MAX`: the session id counter is an `AtomicU32`. -/
def U32_MAX : Nat := 4294967295

/-- `u32::checked_add`: `some` exactly when the sum stays within `u32`. -/
def checked_add (a b : Nat) : Option Nat :=
  if a + b ≤ U32_MAX then some (a + b) else none

/-- `Inner` of `process_manager.rs`: the session registry and the atomic id
counter (starting at 1). -/
structure Inner where
  sessions : List (Nat × PtySession)
  next_id : Nat
deriving DecidableEq, Repr

/-- `ProcessManager::new`: no sessions, ids start at 1. -/
def ProcessManager.new : Inner := ⟨[], 1⟩

/-- `ProcessManager::spawn_shell`, reduced to its effect on the registry and
the id counter.  First the id is allocated with
`next_id.fetch_update(|current| current.checked_add(1))` — failure is
`IdOverflow` and nothing else happens; the returned id is the previous
counter value.  `io_ok` abstracts the subsequent fallible PTY steps
(openpty, spawn, pid capture, writer/reader, thread spawn), none of which
touch the counter or the registry; on their failure the allocated id is
simply consumed.  On success the session is inserted under the new id. -/
def spawn_shell (st : Inner) (io_ok : Bool) (sess : PtySession) :
    Except PtyError Nat × Inner :=
  match checked_add st.next_id 1 with
  | none => (.error PtyError.id_overflow, st)
  | some n =>
    if io_ok then
      (.ok st.next_id,
        { sessions := st.sessions ++ [(st.next_id, sess)], next_id := n })
    else
      (.error (PtyError.spawn_failed "post-allocation spawn step failed"),
        { st with next_id := n })

/-- One observable effect of `kill_session`, in program order. -/
inductive KillStep where
  | removedFromRegistry (id : Nat)
  | sigtermGroup (pgid : Int)
  | sigkillGroup (pgid : Int)
  | notifyShutdown
  | dropHandles
  | joinReader
deriving DecidableEq, Repr

/-- `ProcessManager::kill_session` as a pure transition with an effect trace.
The session is removed from the registry first (`sessions.remove`); an
absent id returns `SessionNotFound` with nothing done.  Then SIGTERM goes to
the process group, `exitedWithinGrace` abstracts whether the child exited
during the 3-second poll (otherwise SIGKILL to the group), then the emitter
is notified, the writer/master handles dropped, and the reader joined. -/
def kill_session (reg : List (Nat × PtySession)) (id : Nat)
    (exitedWithinGrace : Bool) :
    Except PtyError Unit × List (Nat × PtySession) × List KillStep :=
  match reg.lookup id with
  | none => (.error (PtyError.session_not_found id), reg, [])
  | some sess =>
    let reg' := reg.filter (fun p => p.1 != id)
    (.ok (), reg',
      KillStep.removedFromRegistry id ::
        KillStep.sigtermGroup sess.pgid ::
          (if exitedWithinGrace then [] else [KillStep.sigkillGroup sess.pgid]) ++
            [KillStep.notifyShutdown, KillStep.dropHandles, KillStep.joinReader])

/-- Outcomes of the fallible steps inside `write_stdin` after the lookup. -/
structure WriteFx where
  lockPoisoned : Bool
  writeFails : Bool
  flushFails : Bool
deriving DecidableEq, Repr

/-- `ProcessManager::write_stdin`: lookup, then lock/write/flush, each
failure mapped to `WriteFailed`. -/
def write_stdin (reg : List (Nat × PtySession)) (id : Nat) (fx : WriteFx) :
    Except PtyError Unit :=
  match reg.lookup id with
  | none => .error (PtyError.session_not_found id)
  | some _ =>
    if fx.lockPoisoned then .error (PtyError.write_failed "Writer lock poisoned")
    else if fx.writeFails then .error (PtyError.write_failed "Write failed")
    else if fx.flushFails then .error (PtyError.write_failed "Flush failed")
    else .ok ()

/-- Outcomes of the fallible steps inside `resize_pty` after the lookup. -/
structure ResizeFx where
  lockPoisoned : Bool
  resizeFails : Bool
deriving DecidableEq, Repr

/-- `ProcessManager::resize_pty`: lookup, then lock/resize, each failure
mapped to `ResizeFailed`. -/
def resize_pty (reg : List (Nat × PtySession)) (id : Nat) (_rows _cols : Nat)
    (fx : ResizeFx) : Except PtyError Unit :=
  match reg.lookup id with
  | none => .error (PtyError.session_not_found id)
  | some _ =>
    if fx.lockPoisoned then .error (PtyError.resize_failed "Master lock poisoned")
    else if fx.resizeFails then .error (PtyError.resize_failed "Resize failed")
    else .ok ()

/-- An operation on the process manager, for lifetime traces. -/
inductive MgrOp where
  | spawn (io_ok : Bool) (sess : PtySession)
  | kill (id : Nat) (exitedWithinGrace : Bool)

/-- Run a sequence of operations from a state, collecting the session ids
returned by the successful spawns in order. -/
def runMgr : Inner → List MgrOp → Inner × List Nat
  | st, [] => (st, [])
  | st, .spawn ok sess :: ops =>
    let r := spawn_shell st ok sess
    let rest := runMgr r.2 ops
    match r.1 with
    | .ok id => (rest.1, id :: rest.2)
    | .error _ => rest
  | st, .kill id g :: ops =>
    let k := kill_session st.sessions id g
    runMgr { st with sessions := k.2.1 } ops

end Pty

namespace Worktree

/-- `BranchInfo` of the git layer. -/
structure BranchInfo where
  name : String
  is_remote : Bool
  is_current : Bool
deriving DecidableEq, Repr

/-- `WorktreeInfo` of the git layer. -/
structure WorktreeInfo where
  path : String
  branch : Option String
  is_main_worktree : Bool
deriving DecidableEq, Repr

/-- `WorktreePreparationResult` of `commands/worktree.rs`. -/
structure WorktreePreparationResult where
  working_directory : String
  worktree_path : Option String
  created : Bool
  warning : Option String
deriving DecidableEq, Repr

/-- Oracle for the outcomes of the git and worktree-manager calls made by
`prepare_worktree_inner`.  Each field fixes the result of the corresponding
call; the source awaits each call at most once per run (`list_branches` is
invoked twice and deterministically returns the same answer). -/
structure GitEnv where
  list_branches : Except String (List BranchInfo)
  worktree_list : Except String (List WorktreeInfo)
  current_branch : Except String String
  get_default_branch : Except String (Option String)
  checkout_branch : String → Except String Unit
  detach_head : Except String Unit
  create_branch : String → Option String → Except String Unit
  worktree_create : Except String String

/-- `resolve_local_branch_name` of `commands/worktree.rs`: keep a name that
exists as a local branch; otherwise strip everything up to and including the
first `/` (the source slices at `branch.find('/') + 1`). -/
def resolve_local_branch_name (branch : String) (local_branches : List BranchInfo) :
    String :=
  if local_branches.any (fun b => !b.is_remote && b.name == branch) then branch
  else
    match afterFirst '/' branch.data with
    | some t => String.mk t
    | none => branch

/-- `get_fallback_branch` of `commands/worktree.rs`: the configured default
branch when distinct from the avoided one; else the first of
`main`/`master`/`develop` existing locally and distinct from it; else any
other local branch; else `none`. -/
def get_fallback_branch (env : GitEnv) (avoid_branch : String) : Option String :=
  let fromDefault : Option String :=
    match env.get_default_branch with
    | .ok (some default) => if default != avoid_branch then some default else none
    | _ => none
  match fromDefault with
  | some d => some d
  | none =>
    match env.list_branches with
    | .ok branches =>
      match ["main", "master", "develop"].find?
          (fun c => c != avoid_branch && branches.any (fun b => !b.is_remote && b.name == c)) with
      | some c => some c
      | none =>
        (branches.find? (fun b => !b.is_remote && b.name != avoid_branch)).map
          (fun b => b.name)
    | .error _ => none

/-- `ensure_local_branch` of `commands/worktree.rs`: no-op when the local
branch exists; else create a tracking branch from a matching remote ref, or
create from HEAD. -/
def ensure_local_branch (env : GitEnv) (original_branch local_branch : String)
    (branches : List BranchInfo) : Except String Unit :=
  if branches.any (fun b => !b.is_remote && b.name == local_branch) then .ok ()
  else
    let is_remote_ref := strContains original_branch '/'
    let remote_exists := branches.any (fun b => b.is_remote && b.name == original_branch)
    if is_remote_ref && remote_exists then
      env.create_branch local_branch (some original_branch)
    else
      env.create_branch local_branch none

/-- `prepare_worktree_inner` of `commands/worktree.rs`, with the git calls
resolved through `env`.  Mirrors the source's control flow: empty/absent
branch → project path; reuse of a managed worktree; switching the main
repo off the target branch (failures only set the warning); ensuring a
local branch (failure → project path with warning); creating the worktree
(failure → project path with warning). -/
def prepare_worktree_inner (env : GitEnv) (project_path : String)
    (branch : Option String) : Except String WorktreePreparationResult :=
  match branch with
  | none => .ok ⟨project_path, none, false, none⟩
  | some b =>
    if strIsEmpty b then .ok ⟨project_path, none, false, none⟩
    else
      let branches := match env.list_branches with | .ok bs => bs | .error _ => []
      let local_branch := resolve_local_branch_name b branches
      let reuse : Option WorktreeInfo :=
        match env.worktree_list with
        | .ok wts =>
          wts.find? (fun wt => !wt.is_main_worktree && wt.branch == some local_branch)
        | .error _ => none
      match reuse with
      | some wt => .ok ⟨wt.path, some wt.path, false, none⟩
      | none =>
        let current_branch : Option String :=
          match env.current_branch with | .ok c => some c | .error _ => none
        let warning : Option String :=
          if current_branch = some local_branch then
            match get_fallback_branch env local_branch with
            | some fallback =>
              match env.checkout_branch fallback with
              | .ok _ => none
              | .error e =>
                some ("Could not switch main repo from " ++ local_branch ++ ": " ++ e)
            | none =>
              match env.detach_head with
              | .ok _ => none
              | .error e => some ("Could not detach HEAD: " ++ e)
          else none
        match ensure_local_branch env b local_branch branches with
        | .error e =>
          .ok ⟨project_path, none, false,
            some ("Failed to create branch " ++ local_branch ++ ": " ++ e)⟩
        | .ok _ =>
          match env.worktree_create with
          | .ok wt_path => .ok ⟨wt_path, some wt_path, true, warning⟩
          | .error e =>
            .ok ⟨project_path, none, false,
              some ("Failed to create worktree: " ++ e)⟩

end Worktree

end Maestro

/-! ## Theorems

Helper lemmas first, then one theorem per claim (with witnesses or
counterexamples where required). -/

namespace Maestro

namespace Utf8

theorem classifyHead_nil : classifyHead [] = .eof := rfl

theorem validateFuel_nil : ∀ f, validateFuel f [] = none
  | 0 => rfl
  | _ + 1 => rfl

theorem decodeCharsFuel_nil : ∀ f, decodeCharsFuel f [] = []
  | 0 => rfl
  | _ + 1 => rfl

theorem lossyFuel_nil : ∀ f, lossyFuel f [] = []
  | 0 => rfl
  | _ + 1 => rfl

theorem classifyHead_char_pos : ∀ {l : List Byte} {cp n : Nat},
    classifyHead l = .char cp n → 1 ≤ n ∧ n ≤ l.length := by
  intro l cp n h
  match l with
  | [] => exact Head.noConfusion h
  | b :: rest =>
    simp only [classifyHead] at h
    by_cases h1 : b < 0x80
    · rw [if_pos h1] at h
      injection h with hcp hn
      subst hn
      simp
    · rw [if_neg h1] at h
      by_cases h2 : b < 0xC2
      · rw [if_pos h2] at h
        exact Head.noConfusion h
      · rw [if_neg h2] at h
        by_cases h3 : b ≤ 0xDF
        · rw [if_pos h3] at h
          cases rest with
          | nil => exact Head.noConfusion h
          | cons c1 rest1 =>
            simp only [] at h
            by_cases h4 : isCont c1 = true
            · rw [if_pos h4] at h
              injection h with hcp hn
              subst hn
              simp
            · rw [if_neg h4] at h
              exact Head.noConfusion h
        · rw [if_neg h3] at h
          by_cases h5 : b ≤ 0xEF
          · rw [if_pos h5] at h
            cases rest with
            | nil => exact Head.noConfusion h
            | cons c1 rest1 =>
              simp only [] at h
              by_cases h6 : validSecond b c1 = true
              · rw [if_pos h6] at h
                cases rest1 with
                | nil => exact Head.noConfusion h
                | cons c2 rest2 =>
                  simp only [] at h
                  by_cases h7 : isCont c2 = true
                  · rw [if_pos h7] at h
                    injection h with hcp hn
                    subst hn
                    simp
                  · rw [if_neg h7] at h
                    exact Head.noConfusion h
              · rw [if_neg h6] at h
                exact Head.noConfusion h
          · rw [if_neg h5] at h
            by_cases h8 : b ≤ 0xF4
            · rw [if_pos h8] at h
              cases rest with
              | nil => exact Head.noConfusion h
              | cons c1 rest1 =>
                simp only [] at h
                by_cases h9 : validSecond b c1 = true
                · rw [if_pos h9] at h
                  cases rest1 with
                  | nil => exact Head.noConfusion h
                  | cons c2 rest2 =>
                    simp only [] at h
                    by_cases h10 : isCont c2 = true
                    · rw [if_pos h10] at h
                      cases rest2 with
                      | nil => exact Head.noConfusion h
                      | cons c3 rest3 =>
                        simp only [] at h
                        by_cases h11 : isCont c3 = true
                        · rw [if_pos h11] at h
                          injection h with hcp hn
                          subst hn
                          simp
                        · rw [if_neg h11] at h
                          exact Head.noConfusion h
                    · rw [if_neg h10] at h
                      exact Head.noConfusion h
                · rw [if_neg h9] at h
                  exact Head.noConfusion h
            · rw [if_neg h8] at h
              exact Head.noConfusion h

theorem classifyHead_bad_pos : ∀ {l : List Byte} {k : Nat},
    classifyHead l = .bad k → 1 ≤ k ∧ k ≤ l.length := by
  intro l k h
  match l with
  | [] => exact Head.noConfusion h
  | b :: rest =>
    simp only [classifyHead] at h
    by_cases h1 : b < 0x80
    · rw [if_pos h1] at h
      exact Head.noConfusion h
    · rw [if_neg h1] at h
      by_cases h2 : b < 0xC2
      · rw [if_pos h2] at h
        injection h with hk
        subst hk
        simp
      · rw [if_neg h2] at h
        by_cases h3 : b ≤ 0xDF
        · rw [if_pos h3] at h
          cases rest with
          | nil => exact Head.noConfusion h
          | cons c1 rest1 =>
            simp only [] at h
            by_cases h4 : isCont c1 = true
            · rw [if_pos h4] at h
              exact Head.noConfusion h
            · rw [if_neg h4] at h
              injection h with hk
              subst hk
              simp
        · rw [if_neg h3] at h
          by_cases h5 : b ≤ 0xEF
          · rw [if_pos h5] at h
            cases rest with
            | nil => exact Head.noConfusion h
            | cons c1 rest1 =>
              simp only [] at h
              by_cases h6 : validSecond b c1 = true
              · rw [if_pos h6] at h
                cases rest1 with
                | nil => exact Head.noConfusion h
                | cons c2 rest2 =>
                  simp only [] at h
                  by_cases h7 : isCont c2 = true
                  · rw [if_pos h7] at h
                    exact Head.noConfusion h
                  · rw [if_neg h7] at h
                    injection h with hk
                    subst hk
                    simp
              · rw [if_neg h6] at h
                injection h with hk
                subst hk
                simp
          · rw [if_neg h5] at h
            by_cases h8 : b ≤ 0xF4
            · rw [if_pos h8] at h
              cases rest with
              | nil => exact Head.noConfusion h
              | cons c1 rest1 =>
                simp only [] at h
                by_cases h9 : validSecond b c1 = true
                · rw [if_pos h9] at h
                  cases rest1 with
                  | nil => exact Head.noConfusion h
                  | cons c2 rest2 =>
                    simp only [] at h
                    by_cases h10 : isCont c2 = true
                    · rw [if_pos h10] at h
                      cases rest2 with
                      | nil => exact Head.noConfusion h
                      | cons c3 rest3 =>
                        simp only [] at h
                        by_cases h11 : isCont c3 = true
                        · rw [if_pos h11] at h
                          exact Head.noConfusion h
                        · rw [if_neg h11] at h
                          injection h with hk
                          subst hk
                          simp
                    · rw [if_neg h10] at h
                      injection h with hk
                      subst hk
                      simp
                · rw [if_neg h9] at h
                  injection h with hk
                  subst hk
                  simp
            · rw [if_neg h8] at h
              injection h with hk
              subst hk
              simp

theorem validateFuel_congr : ∀ (f : Nat), ∀ (g : Nat) (l : List Byte),
    l.length ≤ f → l.length ≤ g → validateFuel f l = validateFuel g l := by
  intro f
  induction f with
  | zero =>
    intro g l hf _
    have : l = [] := List.length_eq_zero.mp (Nat.le_zero.mp hf)
    subst this
    rw [validateFuel_nil, validateFuel_nil]
  | succ f ih =>
    intro g l hf hg
    cases l with
    | nil => rw [validateFuel_nil, validateFuel_nil]
    | cons b rest =>
      obtain ⟨g', rfl⟩ : ∃ g', g = g' + 1 := ⟨g - 1, by simp at hg; omega⟩
      simp only [validateFuel]
      cases hc : classifyHead (b :: rest) with
      | eof => rfl
      | char cp n =>
        obtain ⟨hn1, hn2⟩ := classifyHead_char_pos hc
        simp only []
        rw [ih g' ((b :: rest).drop n) (by simp at hf hn2 ⊢; omega)
          (by simp at hg hn2 ⊢; omega)]
      | trunc => rfl
      | bad k => rfl

theorem decodeCharsFuel_congr : ∀ (f : Nat), ∀ (g : Nat) (l : List Byte),
    l.length ≤ f → l.length ≤ g → decodeCharsFuel f l = decodeCharsFuel g l := by
  intro f
  induction f with
  | zero =>
    intro g l hf _
    have : l = [] := List.length_eq_zero.mp (Nat.le_zero.mp hf)
    subst this
    rw [decodeCharsFuel_nil, decodeCharsFuel_nil]
  | succ f ih =>
    intro g l hf hg
    cases l with
    | nil => rw [decodeCharsFuel_nil, decodeCharsFuel_nil]
    | cons b rest =>
      obtain ⟨g', rfl⟩ : ∃ g', g = g' + 1 := ⟨g - 1, by simp at hg; omega⟩
      simp only [decodeCharsFuel]
      cases hc : classifyHead (b :: rest) with
      | eof => rfl
      | char cp n =>
        obtain ⟨hn1, hn2⟩ := classifyHead_char_pos hc
        simp only []
        rw [ih g' ((b :: rest).drop n) (by simp at hf hn2 ⊢; omega)
          (by simp at hg hn2 ⊢; omega)]
      | trunc => rfl
      | bad k => rfl

theorem lossyFuel_congr : ∀ (f : Nat), ∀ (g : Nat) (l : List Byte),
    l.length ≤ f → l.length ≤ g → lossyFuel f l = lossyFuel g l := by
  intro f
  induction f with
  | zero =>
    intro g l hf _
    have : l = [] := List.length_eq_zero.mp (Nat.le_zero.mp hf)
    subst this
    rw [lossyFuel_nil, lossyFuel_nil]
  | succ f ih =>
    intro g l hf hg
    cases l with
    | nil => rw [lossyFuel_nil, lossyFuel_nil]
    | cons b rest =>
      obtain ⟨g', rfl⟩ : ∃ g', g = g' + 1 := ⟨g - 1, by simp at hg; omega⟩
      simp only [lossyFuel]
      cases hc : classifyHead (b :: rest) with
      | eof => rfl
      | char cp n =>
        obtain ⟨hn1, hn2⟩ := classifyHead_char_pos hc
        simp only []
        rw [ih g' ((b :: rest).drop n) (by simp at hf hn2 ⊢; omega)
          (by simp at hg hn2 ⊢; omega)]
      | trunc => rfl
      | bad k =>
        obtain ⟨hk1, hk2⟩ := classifyHead_bad_pos hc
        simp only []
        rw [ih g' ((b :: rest).drop k) (by simp at hf hk2 ⊢; omega)
          (by simp at hg hk2 ⊢; omega)]

theorem ne_nil_of_classifyHead {l : List Byte} {h : Head}
    (hc : classifyHead l = h) (hne : h ≠ .eof) : l ≠ [] := by
  intro hl
  subst hl
  exact hne hc.symm

theorem utf8Validate_nil : utf8Validate [] = none := rfl

theorem utf8Validate_char {l : List Byte} {cp n : Nat}
    (h : classifyHead l = .char cp n) :
    utf8Validate l = (utf8Validate (l.drop n)).map (fun p => (p.1 + n, p.2)) := by
  obtain ⟨hn1, hn2⟩ := classifyHead_char_pos h
  have hl : l ≠ [] := ne_nil_of_classifyHead h (by simp)
  obtain ⟨f, hf⟩ : ∃ f, l.length = f + 1 := by
    cases l with
    | nil => exact absurd rfl hl
    | cons b rest => exact ⟨rest.length, by simp⟩
  unfold utf8Validate
  rw [hf]
  simp only [validateFuel, h]
  rw [validateFuel_congr f (l.drop n).length (l.drop n)
    (by simp; omega) (le_refl _)]

theorem utf8Validate_trunc {l : List Byte} (h : classifyHead l = .trunc) :
    utf8Validate l = some (0, none) := by
  have hl : l ≠ [] := ne_nil_of_classifyHead h (by simp)
  obtain ⟨f, hf⟩ : ∃ f, l.length = f + 1 := by
    cases l with
    | nil => exact absurd rfl hl
    | cons b rest => exact ⟨rest.length, by simp⟩
  unfold utf8Validate
  rw [hf]
  simp only [validateFuel, h]

theorem utf8Validate_bad {l : List Byte} {k : Nat} (h : classifyHead l = .bad k) :
    utf8Validate l = some (0, some k) := by
  have hl : l ≠ [] := ne_nil_of_classifyHead h (by simp)
  obtain ⟨f, hf⟩ : ∃ f, l.length = f + 1 := by
    cases l with
    | nil => exact absurd rfl hl
    | cons b rest => exact ⟨rest.length, by simp⟩
  unfold utf8Validate
  rw [hf]
  simp only [validateFuel, h]

theorem decodeChars_nil : decodeChars [] = [] := rfl

theorem decodeChars_char {l : List Byte} {cp n : Nat}
    (h : classifyHead l = .char cp n) :
    decodeChars l = cp :: decodeChars (l.drop n) := by
  obtain ⟨hn1, hn2⟩ := classifyHead_char_pos h
  have hl : l ≠ [] := ne_nil_of_classifyHead h (by simp)
  obtain ⟨f, hf⟩ : ∃ f, l.length = f + 1 := by
    cases l with
    | nil => exact absurd rfl hl
    | cons b rest => exact ⟨rest.length, by simp⟩
  unfold decodeChars
  rw [hf]
  simp only [decodeCharsFuel, h]
  rw [decodeCharsFuel_congr f (l.drop n).length (l.drop n)
    (by simp; omega) (le_refl _)]

theorem fromUtf8Lossy_nil : fromUtf8Lossy [] = [] := rfl

theorem fromUtf8Lossy_char {l : List Byte} {cp n : Nat}
    (h : classifyHead l = .char cp n) :
    fromUtf8Lossy l = cp :: fromUtf8Lossy (l.drop n) := by
  obtain ⟨hn1, hn2⟩ := classifyHead_char_pos h
  have hl : l ≠ [] := ne_nil_of_classifyHead h (by simp)
  obtain ⟨f, hf⟩ : ∃ f, l.length = f + 1 := by
    cases l with
    | nil => exact absurd rfl hl
    | cons b rest => exact ⟨rest.length, by simp⟩
  unfold fromUtf8Lossy
  rw [hf]
  simp only [lossyFuel, h]
  rw [lossyFuel_congr f (l.drop n).length (l.drop n)
    (by simp; omega) (le_refl _)]

theorem fromUtf8Lossy_trunc {l : List Byte} (h : classifyHead l = .trunc) :
    fromUtf8Lossy l = [0xFFFD] := by
  have hl : l ≠ [] := ne_nil_of_classifyHead h (by simp)
  obtain ⟨f, hf⟩ : ∃ f, l.length = f + 1 := by
    cases l with
    | nil => exact absurd rfl hl
    | cons b rest => exact ⟨rest.length, by simp⟩
  unfold fromUtf8Lossy
  rw [hf]
  simp only [lossyFuel, h]

theorem fromUtf8Lossy_bad {l : List Byte} {k : Nat} (h : classifyHead l = .bad k) :
    fromUtf8Lossy l = 0xFFFD :: fromUtf8Lossy (l.drop k) := by
  obtain ⟨hk1, hk2⟩ := classifyHead_bad_pos h
  have hl : l ≠ [] := ne_nil_of_classifyHead h (by simp)
  obtain ⟨f, hf⟩ : ∃ f, l.length = f + 1 := by
    cases l with
    | nil => exact absurd rfl hl
    | cons b rest => exact ⟨rest.length, by simp⟩
  unfold fromUtf8Lossy
  rw [hf]
  simp only [lossyFuel, h]
  rw [lossyFuel_congr f (l.drop k).length (l.drop k)
    (by simp; omega) (le_refl _)]

theorem find_valid_boundary_nil : find_valid_boundary [] = 0 := rfl

theorem find_valid_boundary_of_valid {data : List Byte}
    (h : utf8Validate data = none) : find_valid_boundary data = data.length := by
  unfold find_valid_boundary
  rw [h]

theorem find_valid_boundary_char {data : List Byte} {cp n : Nat}
    (h : classifyHead data = .char cp n) :
    find_valid_boundary data = n + find_valid_boundary (data.drop n) := by
  obtain ⟨hn1, hn2⟩ := classifyHead_char_pos h
  unfold find_valid_boundary
  rw [utf8Validate_char h]
  cases hv : utf8Validate (data.drop n) with
  | none =>
    simp only [Option.map_none']
    simp only [List.length_drop]
    omega
  | some p =>
    obtain ⟨v, e⟩ := p
    cases e with
    | none => simp only [Option.map_some']; omega
    | some k => simp only [Option.map_some']; omega

theorem find_valid_boundary_trunc {data : List Byte}
    (h : classifyHead data = .trunc) : find_valid_boundary data = 0 := by
  unfold find_valid_boundary
  rw [utf8Validate_trunc h]

theorem find_valid_boundary_bad {data : List Byte} {k : Nat}
    (h : classifyHead data = .bad k) : find_valid_boundary data = k := by
  unfold find_valid_boundary
  rw [utf8Validate_bad h]
  simp only []
  omega

theorem classifyHead_char_take_append : ∀ {l : List Byte} {cp n : Nat},
    classifyHead l = .char cp n → ∀ m, classifyHead (l.take n ++ m) = .char cp n := by
  intro l cp n h
  match l with
  | [] => exact Head.noConfusion h
  | b :: rest =>
    simp only [classifyHead] at h
    by_cases h1 : b < 0x80
    · rw [if_pos h1] at h
      injection h with hcp hn
      subst hcp
      subst hn
      intro m
      show classifyHead (b :: m) = Head.char b 1
      simp only [classifyHead]
      rw [if_pos h1]
    · rw [if_neg h1] at h
      by_cases h2 : b < 0xC2
      · rw [if_pos h2] at h
        exact Head.noConfusion h
      · rw [if_neg h2] at h
        by_cases h3 : b ≤ 0xDF
        · rw [if_pos h3] at h
          cases rest with
          | nil => exact Head.noConfusion h
          | cons c1 rest1 =>
            simp only [] at h
            by_cases h4 : isCont c1 = true
            · rw [if_pos h4] at h
              injection h with hcp hn
              subst hcp
              subst hn
              intro m
              show classifyHead (b :: c1 :: m) =
                Head.char ((b - 0xC0) * 0x40 + (c1 - 0x80)) 2
              simp only [classifyHead]
              rw [if_neg h1, if_neg h2, if_pos h3, if_pos h4]
            · rw [if_neg h4] at h
              exact Head.noConfusion h
        · rw [if_neg h3] at h
          by_cases h5 : b ≤ 0xEF
          · rw [if_pos h5] at h
            cases rest with
            | nil => exact Head.noConfusion h
            | cons c1 rest1 =>
              simp only [] at h
              by_cases h6 : validSecond b c1 = true
              · rw [if_pos h6] at h
                cases rest1 with
                | nil => exact Head.noConfusion h
                | cons c2 rest2 =>
                  simp only [] at h
                  by_cases h7 : isCont c2 = true
                  · rw [if_pos h7] at h
                    injection h with hcp hn
                    subst hcp
                    subst hn
                    intro m
                    show classifyHead (b :: c1 :: c2 :: m) =
                      Head.char ((b - 0xE0) * 0x1000 + (c1 - 0x80) * 0x40 +
                        (c2 - 0x80)) 3
                    simp only [classifyHead]
                    rw [if_neg h1, if_neg h2, if_neg h3, if_pos h5, if_pos h6,
                      if_pos h7]
                  · rw [if_neg h7] at h
                    exact Head.noConfusion h
              · rw [if_neg h6] at h
                exact Head.noConfusion h
          · rw [if_neg h5] at h
            by_cases h8 : b ≤ 0xF4
            · rw [if_pos h8] at h
              cases rest with
              | nil => exact Head.noConfusion h
              | cons c1 rest1 =>
                simp only [] at h
                by_cases h9 : validSecond b c1 = true
                · rw [if_pos h9] at h
                  cases rest1 with
                  | nil => exact Head.noConfusion h
                  | cons c2 rest2 =>
                    simp only [] at h
                    by_cases h10 : isCont c2 = true
                    · rw [if_pos h10] at h
                      cases rest2 with
                      | nil => exact Head.noConfusion h
                      | cons c3 rest3 =>
                        simp only [] at h
                        by_cases h11 : isCont c3 = true
                        · rw [if_pos h11] at h
                          injection h with hcp hn
                          subst hcp
                          subst hn
                          intro m
                          show classifyHead (b :: c1 :: c2 :: c3 :: m) =
                            Head.char ((b - 0xF0) * 0x40000 +
                              (c1 - 0x80) * 0x1000 + (c2 - 0x80) * 0x40 +
                              (c3 - 0x80)) 4
                          simp only [classifyHead]
                          rw [if_neg h1, if_neg h2, if_neg h3, if_neg h5,
                            if_pos h8, if_pos h9, if_pos h10, if_pos h11]
                        · rw [if_neg h11] at h
                          exact Head.noConfusion h
                    · rw [if_neg h10] at h
                      exact Head.noConfusion h
                · rw [if_neg h9] at h
                  exact Head.noConfusion h
            · rw [if_neg h8] at h
              exact Head.noConfusion h

theorem classifyHead_bad_append : ∀ {l : List Byte} {k : Nat},
    classifyHead l = .bad k → ∀ m, classifyHead (l ++ m) = .bad k := by
  intro l k h
  match l with
  | [] => exact Head.noConfusion h
  | b :: rest =>
    simp only [classifyHead] at h
    by_cases h1 : b < 0x80
    · rw [if_pos h1] at h
      exact Head.noConfusion h
    · rw [if_neg h1] at h
      by_cases h2 : b < 0xC2
      · rw [if_pos h2] at h
        injection h with hk
        subst hk
        intro m
        show classifyHead (b :: (rest ++ m)) = Head.bad 1
        simp only [classifyHead]
        rw [if_neg h1, if_pos h2]
      · rw [if_neg h2] at h
        by_cases h3 : b ≤ 0xDF
        · rw [if_pos h3] at h
          cases rest with
          | nil => exact Head.noConfusion h
          | cons c1 rest1 =>
            simp only [] at h
            by_cases h4 : isCont c1 = true
            · rw [if_pos h4] at h
              exact Head.noConfusion h
            · rw [if_neg h4] at h
              injection h with hk
              subst hk
              intro m
              show classifyHead (b :: c1 :: (rest1 ++ m)) = Head.bad 1
              simp only [classifyHead]
              rw [if_neg h1, if_neg h2, if_pos h3, if_neg h4]
        · rw [if_neg h3] at h
          by_cases h5 : b ≤ 0xEF
          · rw [if_pos h5] at h
            cases rest with
            | nil => exact Head.noConfusion h
            | cons c1 rest1 =>
              simp only [] at h
              by_cases h6 : validSecond b c1 = true
              · rw [if_pos h6] at h
                cases rest1 with
                | nil => exact Head.noConfusion h
                | cons c2 rest2 =>
                  simp only [] at h
                  by_cases h7 : isCont c2 = true
                  · rw [if_pos h7] at h
                    exact Head.noConfusion h
                  · rw [if_neg h7] at h
                    injection h with hk
                    subst hk
                    intro m
                    show classifyHead (b :: c1 :: c2 :: (rest2 ++ m)) = Head.bad 2
                    simp only [classifyHead]
                    rw [if_neg h1, if_neg h2, if_neg h3, if_pos h5, if_pos h6,
                      if_neg h7]
              · rw [if_neg h6] at h
                injection h with hk
                subst hk
                intro m
                show classifyHead (b :: c1 :: (rest1 ++ m)) = Head.bad 1
                simp only [classifyHead]
                rw [if_neg h1, if_neg h2, if_neg h3, if_pos h5, if_neg h6]
          · rw [if_neg h5] at h
            by_cases h8 : b ≤ 0xF4
            · rw [if_pos h8] at h
              cases rest with
              | nil => exact Head.noConfusion h
              | cons c1 rest1 =>
                simp only [] at h
                by_cases h9 : validSecond b c1 = true
                · rw [if_pos h9] at h
                  cases rest1 with
                  | nil => exact Head.noConfusion h
                  | cons c2 rest2 =>
                    simp only [] at h
                    by_cases h10 : isCont c2 = true
                    · rw [if_pos h10] at h
                      cases rest2 with
                      | nil => exact Head.noConfusion h
                      | cons c3 rest3 =>
                        simp only [] at h
                        by_cases h11 : isCont c3 = true
                        · rw [if_pos h11] at h
                          exact Head.noConfusion h
                        · rw [if_neg h11] at h
                          injection h with hk
                          subst hk
                          intro m
                          show classifyHead (b :: c1 :: c2 :: c3 :: (rest3 ++ m)) =
                            Head.bad 3
                          simp only [classifyHead]
                          rw [if_neg h1, if_neg h2, if_neg h3, if_neg h5,
                            if_pos h8, if_pos h9, if_pos h10, if_neg h11]
                    · rw [if_neg h10] at h
                      injection h with hk
                      subst hk
                      intro m
                      show classifyHead (b :: c1 :: c2 :: (rest2 ++ m)) = Head.bad 2
                      simp only [classifyHead]
                      rw [if_neg h1, if_neg h2, if_neg h3, if_neg h5, if_pos h8,
                        if_pos h9, if_neg h10]
                · rw [if_neg h9] at h
                  injection h with hk
                  subst hk
                  intro m
                  show classifyHead (b :: c1 :: (rest1 ++ m)) = Head.bad 1
                  simp only [classifyHead]
                  rw [if_neg h1, if_neg h2, if_neg h3, if_neg h5, if_pos h8,
                    if_neg h9]
            · rw [if_neg h8] at h
              injection h with hk
              subst hk
              intro m
              show classifyHead (b :: (rest ++ m)) = Head.bad 1
              simp only [classifyHead]
              rw [if_neg h1, if_neg h2, if_neg h3, if_neg h5, if_neg h8]

theorem fromUtf8Lossy_take_bad : ∀ {l : List Byte} {k : Nat},
    classifyHead l = .bad k → fromUtf8Lossy (l.take k) = [0xFFFD] := by
  intro l k h
  match l with
  | [] => exact Head.noConfusion h
  | b :: rest =>
    simp only [classifyHead] at h
    by_cases h1 : b < 0x80
    · rw [if_pos h1] at h
      exact Head.noConfusion h
    · rw [if_neg h1] at h
      by_cases h2 : b < 0xC2
      · rw [if_pos h2] at h
        injection h with hk
        subst hk
        have hb : classifyHead [b] = .bad 1 := by
          simp only [classifyHead]
          rw [if_neg h1, if_pos h2]
        show fromUtf8Lossy [b] = [0xFFFD]
        rw [fromUtf8Lossy_bad hb]
        rfl
      · rw [if_neg h2] at h
        by_cases h3 : b ≤ 0xDF
        · rw [if_pos h3] at h
          cases rest with
          | nil => exact Head.noConfusion h
          | cons c1 rest1 =>
            simp only [] at h
            by_cases h4 : isCont c1 = true
            · rw [if_pos h4] at h
              exact Head.noConfusion h
            · rw [if_neg h4] at h
              injection h with hk
              subst hk
              have hb : classifyHead [b] = .trunc := by
                simp only [classifyHead]
                rw [if_neg h1, if_neg h2, if_pos h3]
              show fromUtf8Lossy [b] = [0xFFFD]
              rw [fromUtf8Lossy_trunc hb]
        · rw [if_neg h3] at h
          by_cases h5 : b ≤ 0xEF
          · rw [if_pos h5] at h
            cases rest with
            | nil => exact Head.noConfusion h
            | cons c1 rest1 =>
              simp only [] at h
              by_cases h6 : validSecond b c1 = true
              · rw [if_pos h6] at h
                cases rest1 with
                | nil => exact Head.noConfusion h
                | cons c2 rest2 =>
                  simp only [] at h
                  by_cases h7 : isCont c2 = true
                  · rw [if_pos h7] at h
                    exact Head.noConfusion h
                  · rw [if_neg h7] at h
                    injection h with hk
                    subst hk
                    have hb : classifyHead [b, c1] = .trunc := by
                      simp only [classifyHead]
                      rw [if_neg h1, if_neg h2, if_neg h3, if_pos h5, if_pos h6]
                    show fromUtf8Lossy [b, c1] = [0xFFFD]
                    rw [fromUtf8Lossy_trunc hb]
              · rw [if_neg h6] at h
                injection h with hk
                subst hk
                have hb : classifyHead [b] = .trunc := by
                  simp only [classifyHead]
                  rw [if_neg h1, if_neg h2, if_neg h3, if_pos h5]
                show fromUtf8Lossy [b] = [0xFFFD]
                rw [fromUtf8Lossy_trunc hb]
          · rw [if_neg h5] at h
            by_cases h8 : b ≤ 0xF4
            · rw [if_pos h8] at h
              cases rest with
              | nil => exact Head.noConfusion h
              | cons c1 rest1 =>
                simp only [] at h
                by_cases h9 : validSecond b c1 = true
                · rw [if_pos h9] at h
                  cases rest1 with
                  | nil => exact Head.noConfusion h
                  | cons c2 rest2 =>
                    simp only [] at h
                    by_cases h10 : isCont c2 = true
                    · rw [if_pos h10] at h
                      cases rest2 with
                      | nil => exact Head.noConfusion h
                      | cons c3 rest3 =>
                        simp only [] at h
                        by_cases h11 : isCont c3 = true
                        · rw [if_pos h11] at h
                          exact Head.noConfusion h
                        · rw [if_neg h11] at h
                          injection h with hk
                          subst hk
                          have hb : classifyHead [b, c1, c2] = .trunc := by
                            simp only [classifyHead]
                            rw [if_neg h1, if_neg h2, if_neg h3, if_neg h5,
                              if_pos h8, if_pos h9, if_pos h10]
                          show fromUtf8Lossy [b, c1, c2] = [0xFFFD]
                          rw [fromUtf8Lossy_trunc hb]
                    · rw [if_neg h10] at h
                      injection h with hk
                      subst hk
                      have hb : classifyHead [b, c1] = .trunc := by
                        simp only [classifyHead]
                        rw [if_neg h1, if_neg h2, if_neg h3, if_neg h5,
                          if_pos h8, if_pos h9]
                      show fromUtf8Lossy [b, c1] = [0xFFFD]
                      rw [fromUtf8Lossy_trunc hb]
                · rw [if_neg h9] at h
                  injection h with hk
                  subst hk
                  have hb : classifyHead [b] = .trunc := by
                    simp only [classifyHead]
                    rw [if_neg h1, if_neg h2, if_neg h3, if_neg h5, if_pos h8]
                  show fromUtf8Lossy [b] = [0xFFFD]
                  rw [fromUtf8Lossy_trunc hb]
            · rw [if_neg h8] at h
              injection h with hk
              subst hk
              have hb : classifyHead [b] = .bad 1 := by
                simp only [classifyHead]
                rw [if_neg h1, if_neg h2, if_neg h3, if_neg h5, if_neg h8]
              show fromUtf8Lossy [b] = [0xFFFD]
              rw [fromUtf8Lossy_bad hb]
              rfl

theorem classifyHead_cons_ne_eof (b : Byte) (rest : List Byte) :
    classifyHead (b :: rest) ≠ .eof := by
  simp only [classifyHead]
  repeat' split
  all_goals simp

theorem drop_append_of_le {α : Type} (l1 l2 : List α) (n : Nat)
    (h : n ≤ l1.length) : (l1 ++ l2).drop n = l1.drop n ++ l2 := by
  rw [List.drop_append_eq_append_drop, Nat.sub_eq_zero_of_le h, List.drop_zero]

theorem lossy_split_aux : ∀ (N : Nat) (data : List Byte), data.length ≤ N →
    ∀ (more : List Byte),
    fromUtf8Lossy (data.take (find_valid_boundary data)) ++
      fromUtf8Lossy (data.drop (find_valid_boundary data) ++ more) =
      fromUtf8Lossy (data ++ more) := by
  intro N
  induction N with
  | zero =>
    intro data hlen more
    have hd : data = [] := List.length_eq_zero.mp (Nat.le_zero.mp hlen)
    subst hd
    simp [find_valid_boundary_nil, fromUtf8Lossy_nil]
  | succ N ih =>
    intro data hlen more
    cases hc : classifyHead data with
    | eof =>
      cases data with
      | nil => simp [find_valid_boundary_nil, fromUtf8Lossy_nil]
      | cons b rest => exact absurd hc (classifyHead_cons_ne_eof b rest)
    | char cp n =>
      obtain ⟨hn1, hn2⟩ := classifyHead_char_pos hc
      rw [find_valid_boundary_char hc]
      have hlt : (data.take n).length = n := by
        simp [List.length_take]
        omega
      have hdropdrop :
          data.drop (n + find_valid_boundary (data.drop n)) =
            (data.drop n).drop (find_valid_boundary (data.drop n)) := by
        rw [List.drop_drop]
      rw [List.take_add, hdropdrop]
      have hchead1 : classifyHead (data.take n ++
          ((data.drop n).take (find_valid_boundary (data.drop n)))) =
          .char cp n := classifyHead_char_take_append hc _
      have hchead2 : classifyHead (data.take n ++ (data.drop n ++ more)) =
          .char cp n := classifyHead_char_take_append hc _
      rw [fromUtf8Lossy_char hchead1]
      have hdl1 : (data.take n ++
          ((data.drop n).take (find_valid_boundary (data.drop n)))).drop n =
          (data.drop n).take (find_valid_boundary (data.drop n)) :=
        List.drop_left' hlt
      rw [hdl1]
      have hsplit : data ++ more = data.take n ++ (data.drop n ++ more) := by
        rw [← List.append_assoc, List.take_append_drop]
      rw [hsplit, fromUtf8Lossy_char hchead2]
      have hdl2 : (data.take n ++ (data.drop n ++ more)).drop n =
          data.drop n ++ more :=
        List.drop_left' hlt
      rw [hdl2]
      rw [List.cons_append]
      have hih := ih (data.drop n) (by simp [List.length_drop]; omega) more
      rw [hih]
    | trunc =>
      rw [find_valid_boundary_trunc hc]
      simp [fromUtf8Lossy_nil]
    | bad k =>
      obtain ⟨hk1, hk2⟩ := classifyHead_bad_pos hc
      rw [find_valid_boundary_bad hc]
      rw [fromUtf8Lossy_take_bad hc]
      rw [fromUtf8Lossy_bad (classifyHead_bad_append hc more)]
      rw [drop_append_of_le data more k hk2]
      rfl

theorem lossy_split (data more : List Byte) :
    fromUtf8Lossy (data.take (find_valid_boundary data)) ++
      fromUtf8Lossy (data.drop (find_valid_boundary data) ++ more) =
      fromUtf8Lossy (data ++ more) :=
  lossy_split_aux data.length data (le_refl _) more

theorem decodeStream_spec : ∀ (cs : List (List Byte)) (buf : List Byte),
    (decodeStream ⟨buf⟩ cs).1 ++
        fromUtf8Lossy (decodeStream ⟨buf⟩ cs).2.incomplete =
      fromUtf8Lossy (buf ++ cs.flatten) := by
  intro cs
  induction cs with
  | nil =>
    intro buf
    simp only [decodeStream, List.flatten_nil, List.append_nil, List.nil_append]
  | cons c cs ih =>
    intro buf
    simp only [decodeStream, Utf8Decoder.decode]
    rw [List.append_assoc]
    rw [ih ((buf ++ c).drop (find_valid_boundary (buf ++ c)))]
    rw [lossy_split]
    rw [List.flatten_cons, List.append_assoc]

theorem valid_stream_step_aux : ∀ (N : Nat) (data : List Byte),
    data.length ≤ N → ∀ (rest : List Byte),
    utf8Validate (data ++ rest) = none →
      (data.drop (find_valid_boundary data) = [] ∨
        utf8Validate (data.drop (find_valid_boundary data)) = some (0, none)) ∧
      utf8Validate (data.drop (find_valid_boundary data) ++ rest) = none := by
  intro N
  induction N with
  | zero =>
    intro data hlen rest h
    have hd : data = [] := List.length_eq_zero.mp (Nat.le_zero.mp hlen)
    subst hd
    refine ⟨Or.inl rfl, ?_⟩
    simpa using h
  | succ N ih =>
    intro data hlen rest h
    cases hc : classifyHead data with
    | eof =>
      cases data with
      | nil =>
        refine ⟨Or.inl rfl, ?_⟩
        simpa using h
      | cons b r => exact absurd hc (classifyHead_cons_ne_eof b r)
    | char cp n =>
      obtain ⟨hn1, hn2⟩ := classifyHead_char_pos hc
      have hsplit : data ++ rest = data.take n ++ (data.drop n ++ rest) := by
        rw [← List.append_assoc, List.take_append_drop]
      have hchead : classifyHead (data ++ rest) = .char cp n := by
        rw [hsplit]
        exact classifyHead_char_take_append hc _
      have hin : utf8Validate ((data ++ rest).drop n) = none := by
        have := utf8Validate_char hchead
        rw [h] at this
        exact Option.map_eq_none'.mp this.symm
      rw [drop_append_of_le data rest n hn2] at hin
      have hih := ih (data.drop n) (by simp [List.length_drop]; omega) rest hin
      rw [find_valid_boundary_char hc]
      have hdd : data.drop (n + find_valid_boundary (data.drop n)) =
          (data.drop n).drop (find_valid_boundary (data.drop n)) := by
        rw [List.drop_drop]
      rw [hdd]
      exact hih
    | trunc =>
      rw [find_valid_boundary_trunc hc, List.drop_zero]
      exact ⟨Or.inr (utf8Validate_trunc hc), h⟩
    | bad k =>
      have : utf8Validate (data ++ rest) = some (0, some k) :=
        utf8Validate_bad (classifyHead_bad_append hc rest)
      rw [h] at this
      exact Option.noConfusion this

theorem valid_stream_step (data rest : List Byte)
    (h : utf8Validate (data ++ rest) = none) :
    (data.drop (find_valid_boundary data) = [] ∨
      utf8Validate (data.drop (find_valid_boundary data)) = some (0, none)) ∧
    utf8Validate (data.drop (find_valid_boundary data) ++ rest) = none :=
  valid_stream_step_aux data.length data (le_refl _) rest h

theorem decodeStream_wellformed : ∀ (cs : List (List Byte)) (buf : List Byte),
    (buf = [] ∨ utf8Validate buf = some (0, none)) →
    utf8Validate (buf ++ cs.flatten) = none →
    (decodeStream ⟨buf⟩ cs).2.incomplete = [] := by
  intro cs
  induction cs with
  | nil =>
    intro buf hb hv
    rw [List.flatten_nil, List.append_nil] at hv
    cases hb with
    | inl h => exact h
    | inr h =>
      rw [hv] at h
      exact Option.noConfusion h
  | cons c cs ih =>
    intro buf hb hv
    rw [List.flatten_cons, ← List.append_assoc] at hv
    have hstep := valid_stream_step (buf ++ c) cs.flatten hv
    simp only [decodeStream, Utf8Decoder.decode]
    exact ih _ hstep.1 hstep.2

theorem lossy_of_valid_aux : ∀ (N : Nat) (l : List Byte), l.length ≤ N →
    utf8Validate l = none → fromUtf8Lossy l = decodeChars l := by
  intro N
  induction N with
  | zero =>
    intro l hlen _
    have hd : l = [] := List.length_eq_zero.mp (Nat.le_zero.mp hlen)
    subst hd
    rfl
  | succ N ih =>
    intro l hlen hv
    cases hc : classifyHead l with
    | eof =>
      cases l with
      | nil => rfl
      | cons b r => exact absurd hc (classifyHead_cons_ne_eof b r)
    | char cp n =>
      obtain ⟨hn1, hn2⟩ := classifyHead_char_pos hc
      have hin : utf8Validate (l.drop n) = none := by
        have := utf8Validate_char hc
        rw [hv] at this
        exact Option.map_eq_none'.mp this.symm
      rw [fromUtf8Lossy_char hc, decodeChars_char hc]
      rw [ih (l.drop n) (by simp [List.length_drop]; omega) hin]
    | trunc =>
      rw [utf8Validate_trunc hc] at hv
      exact Option.noConfusion hv
    | bad k =>
      rw [utf8Validate_bad hc] at hv
      exact Option.noConfusion hv

theorem lossy_of_valid (l : List Byte) (h : utf8Validate l = none) :
    fromUtf8Lossy l = decodeChars l :=
  lossy_of_valid_aux l.length l (le_refl _) h

end Utf8

theorem lookup_cons_ne {α β : Type} [DecidableEq α] {k k1 : α} {v1 : β}
    {t : List (α × β)} (h : k ≠ k1) : ((k1, v1) :: t).lookup k = t.lookup k := by
  rw [List.lookup_cons]
  have hb : (k == k1) = false := by simpa using h
  rw [hb]

theorem assocInsert_lookup_self {α β : Type} [DecidableEq α]
    (m : List (α × β)) (k : α) (v : β) :
    (assocInsert m k v).lookup k = some v := by
  unfold assocInsert
  by_cases h : (m.lookup k).isSome
  · rw [if_pos h]
    induction m with
    | nil => simp at h
    | cons p t ih =>
      obtain ⟨k1, v1⟩ := p
      by_cases hk : k = k1
      · subst hk
        simp
      · rw [lookup_cons_ne hk] at h
        have := ih h
        simp only [List.map_cons]
        rw [if_neg (fun hkk => hk hkk.symm)]
        rw [lookup_cons_ne hk]
        exact this
  · rw [if_neg h]
    induction m with
    | nil => simp
    | cons p t ih =>
      obtain ⟨k1, v1⟩ := p
      by_cases hk : k = k1
      · subst hk
        simp at h
      · rw [lookup_cons_ne hk] at h
        simpa [lookup_cons_ne hk] using ih h

theorem lookup_map_replace_ne {α β : Type} [DecidableEq α]
    (m : List (α × β)) (k k' : α) (v : β) (h : k' ≠ k) :
    (m.map (fun p => if p.1 = k then (k, v) else p)).lookup k' = m.lookup k' := by
  induction m with
  | nil => rfl
  | cons p t ih =>
    obtain ⟨k1, v1⟩ := p
    simp only [List.map_cons]
    by_cases hk : k1 = k
    · rw [if_pos hk]
      subst hk
      rw [lookup_cons_ne h, lookup_cons_ne h]
      exact ih
    · rw [if_neg hk]
      by_cases hk' : k' = k1
      · subst hk'
        simp
      · rw [lookup_cons_ne hk', lookup_cons_ne hk']
        exact ih

theorem lookup_append_single_ne {α β : Type} [DecidableEq α]
    (m : List (α × β)) (k k' : α) (v : β) (h : k' ≠ k) :
    (m ++ [(k, v)]).lookup k' = m.lookup k' := by
  induction m with
  | nil => simp [lookup_cons_ne h]
  | cons p t ih =>
    obtain ⟨k1, v1⟩ := p
    by_cases hk' : k' = k1
    · subst hk'
      simp
    · rw [List.cons_append, lookup_cons_ne hk', lookup_cons_ne hk']
      exact ih

theorem assocInsert_lookup_ne {α β : Type} [DecidableEq α]
    (m : List (α × β)) (k k' : α) (v : β) (h : k' ≠ k) :
    (assocInsert m k v).lookup k' = m.lookup k' := by
  unfold assocInsert
  by_cases hs : (m.lookup k).isSome
  · rw [if_pos hs]
    exact lookup_map_replace_ne m k k' v h
  · rw [if_neg hs]
    exact lookup_append_single_ne m k k' v h

theorem assocInsert_length {α β : Type} [DecidableEq α]
    (m : List (α × β)) (k : α) (v : β) :
    (assocInsert m k v).length = m.length ∨
      (assocInsert m k v).length = m.length + 1 := by
  unfold assocInsert
  by_cases hs : (m.lookup k).isSome
  · rw [if_pos hs]
    left
    simp
  · rw [if_neg hs]
    right
    simp

/-- C1 (counterexample): feeding the single chunk `[0x80, 0x41]` to the
streaming decoder emits only one replacement character, while the claim's
reference decoding (each invalid byte replaced, resuming at the next valid
leading byte) of the concatenated input is a replacement character followed
by `A` — after skipping the invalid `0x80`, `find_valid_boundary` leaves
the entire remainder (including the valid `0x41`) in the buffer, so the
concatenation of the returned strings falls short of the reference. -/
theorem C1_counterexample :
    (Utf8.decodeStream Utf8.Utf8Decoder.new [[0x80, 0x41]]).1 = [0xFFFD] ∧
    Utf8.specReplacementDecode ([[0x80, 0x41]] : List (List Utf8.Byte)).flatten =
      [0xFFFD, 0x41] ∧
    ([0xFFFD] : List Nat) ≠ [0xFFFD, 0x41] := by
  refine ⟨rfl, rfl, ?_⟩
  decide

/-- C1 (amended): for every sequence of byte chunks, the concatenation of
the emitted code points, extended by the lossy decoding of the bytes still
held in the decoder's buffer, equals the lossy UTF-8 decoding (one
substitution per maximal invalid subsequence, per Rust's `from_utf8` error
lengths) of the concatenated input; and when the concatenated input is
completely well-formed the buffer is empty after the last chunk and the
concatenation equals the UTF-8 decoding of the full input. -/
theorem C1_stream_decoder_amended (cs : List (List Utf8.Byte)) :
    ((Utf8.decodeStream Utf8.Utf8Decoder.new cs).1 ++
        Utf8.fromUtf8Lossy
          (Utf8.decodeStream Utf8.Utf8Decoder.new cs).2.incomplete =
      Utf8.fromUtf8Lossy cs.flatten) ∧
    (Utf8.utf8Validate cs.flatten = none →
      (Utf8.decodeStream Utf8.Utf8Decoder.new cs).2.incomplete = [] ∧
      (Utf8.decodeStream Utf8.Utf8Decoder.new cs).1 =
        Utf8.decodeChars cs.flatten) := by
  rw [show Utf8.Utf8Decoder.new = (⟨[]⟩ : Utf8.Utf8Decoder) from rfl]
  have h1 := Utf8.decodeStream_spec cs []
  rw [List.nil_append] at h1
  constructor
  · exact h1
  · intro hv
    have h2 := Utf8.decodeStream_wellformed cs [] (Or.inl rfl)
      (by rw [List.nil_append]; exact hv)
    refine ⟨h2, ?_⟩
    have h3 := h1
    rw [h2, Utf8.fromUtf8Lossy_nil, List.append_nil] at h3
    rw [h3]
    exact Utf8.lossy_of_valid cs.flatten hv

/-- Witness for C1 (amended) at the spec's split-emoji example: the check
mark `U+2705` split `[0xE2, 0x9C]` / `[0x85, 0x58]` across two chunks
decodes to `✅X` with an empty final buffer. -/
theorem C1_stream_decoder_amended_witness :
    Utf8.utf8Validate
        ([[0xE2, 0x9C], [0x85, 0x58]] : List (List Utf8.Byte)).flatten = none ∧
    (Utf8.decodeStream Utf8.Utf8Decoder.new [[0xE2, 0x9C], [0x85, 0x58]]).1 =
      [0x2705, 0x58] ∧
    (Utf8.decodeStream Utf8.Utf8Decoder.new
        [[0xE2, 0x9C], [0x85, 0x58]]).2.incomplete = [] := by
  have h := (C1_stream_decoder_amended [[0xE2, 0x9C], [0x85, 0x58]]).2 rfl
  refine ⟨rfl, ?_, h.1⟩
  rw [h.2]
  rfl

/-- C3: the claim states that when the bounded 256-slot channel is full at
the moment a chunk has been read, the chunk is dropped with the byte count
logged and the reader continues, neither blocking nor terminating.  The code
instead calls `blocking_send`, which blocks while the channel is full; and
the only path that logs "dropping n bytes" is the send-error path (channel
closed), which then breaks out of the read loop.  This theorem evaluates
the reader's per-chunk step at the failing input (a full channel): it
blocks rather than dropping and continuing, and the drop-logging path
terminates the loop. -/
theorem C3_reader_blocks_on_full_channel :
    Reader.readerChunkStep Reader.ChannelState.full = Reader.ReaderAction.blockOnSend ∧
    Reader.readerChunkStep Reader.ChannelState.full ≠
      Reader.ReaderAction.dropChunkAndContinue ∧
    Reader.readerChunkStep Reader.ChannelState.closed =
      Reader.ReaderAction.logDropAndBreak := by
  refine ⟨rfl, ?_, rfl⟩
  decide

/-- C4 (counterexample): the single tool advertised by the sidecar's
`tools/list` response is named `maestro_status`, not `report_status` as the
claim states. -/
theorem C4_counterexample :
    Sidecar.firstToolName Sidecar.handle_tools_list = some "maestro_status" ∧
    Sidecar.firstToolName Sidecar.handle_tools_list ≠ some "report_status" := by
  refine ⟨rfl, ?_⟩
  decide

/-- C4 (amended): the sidecar's `tools/list` response contains exactly one
tool, named `maestro_status`; its input schema requires exactly `state` and
`message`, constrains `state` to
`{idle, working, needs_input, finished, error}`, and lists
`needsInputPrompt` as a property that is not required (optional). -/
theorem C4_tools_list_amended :
    (Sidecar.toolsOf Sidecar.handle_tools_list).length = 1 ∧
    Sidecar.firstToolName Sidecar.handle_tools_list = some "maestro_status" ∧
    ((Sidecar.firstToolSchema Sidecar.handle_tools_list).bind
        (fun s => s.get "required")) =
      some (.arr [.str "state", .str "message"]) ∧
    ((((Sidecar.firstToolSchema Sidecar.handle_tools_list).bind
        (fun s => s.get "properties")).bind
        (fun p => p.get "state")).bind
        (fun st => st.get "enum")) =
      some (.arr [.str "idle", .str "working", .str "needs_input",
        .str "finished", .str "error"]) ∧
    (((Sidecar.firstToolSchema Sidecar.handle_tools_list).bind
        (fun s => s.get "properties")).bind
        (fun p => p.get "needsInputPrompt")).isSome = true :=
  ⟨rfl, rfl, rfl, rfl, rfl⟩

/-- C5: a status POST whose `instance_id` differs from the supervisor's
responds 403, emits no event, and leaves the whole server state — in
particular the pending-status buffer and the session-to-project routing
map — unchanged. -/
theorem C5_wrong_instance_rejected (st : Status.ServerState)
    (payload : Status.StatusRequest)
    (h : payload.instance_id ≠ st.instance_id) :
    Status.handle_status st payload = (403, [], st) := by
  unfold Status.handle_status
  rw [if_pos h]

/-- Witness for C5 at a concrete state and request. -/
theorem C5_wrong_instance_rejected_witness :
    Status.handle_status ⟨"inst-current", [(1, "/p")], []⟩
        ⟨1, "inst-old", "working", "Stale", none, "t"⟩ =
      (403, [], ⟨"inst-current", [(1, "/p")], []⟩) :=
  C5_wrong_instance_rejected _ _ (by decide)

/-- C6: the pending-status buffer is bounded by 100.  For a status POST with
matching instance id and an unregistered session: when the buffer already
holds at least `MAX_PENDING_STATUSES` entries the new entry is dropped (the
state is unchanged) and the response is still 202; when it holds fewer, the
response is 202 and the entry is stored under its session id, replacing any
prior entry for that id and leaving all other entries untouched; and the
buffer size never exceeds the bound. -/
theorem C6_pending_buffer_bounded (st : Status.ServerState)
    (payload : Status.StatusRequest)
    (hinst : payload.instance_id = st.instance_id)
    (hunreg : st.session_projects.lookup payload.session_id = none) :
    (st.pending_statuses.length ≥ Status.MAX_PENDING_STATUSES →
       Status.handle_status st payload = (202, [], st)) ∧
    (st.pending_statuses.length < Status.MAX_PENDING_STATUSES →
       (Status.handle_status st payload).1 = 202 ∧
       (Status.handle_status st payload).2.1 = [] ∧
       ((Status.handle_status st payload).2.2.pending_statuses).lookup
           payload.session_id = some payload ∧
       (∀ k, k ≠ payload.session_id →
         ((Status.handle_status st payload).2.2.pending_statuses).lookup k =
           st.pending_statuses.lookup k)) ∧
    (st.pending_statuses.length ≤ Status.MAX_PENDING_STATUSES →
       (Status.handle_status st payload).2.2.pending_statuses.length ≤
         Status.MAX_PENDING_STATUSES) := by
  have hno : ¬ (payload.instance_id ≠ st.instance_id) := not_ne_iff.mpr hinst
  by_cases hlen : st.pending_statuses.length < Status.MAX_PENDING_STATUSES
  · have hcall : Status.handle_status st payload =
        (202, [],
          { st with pending_statuses :=
              Status.insertPending st.pending_statuses payload.session_id payload }) := by
      simp only [Status.handle_status, if_neg hno, hunreg, if_pos hlen]
    refine ⟨fun hge => absurd hlen (by omega), fun _ => ?_, fun hle => ?_⟩
    · rw [hcall]
      refine ⟨rfl, rfl, ?_, ?_⟩
      · exact assocInsert_lookup_self st.pending_statuses payload.session_id payload
      · intro k hk
        exact assocInsert_lookup_ne st.pending_statuses payload.session_id k payload hk
    · rw [hcall]
      rcases assocInsert_length st.pending_statuses payload.session_id payload with h | h
      · simp only [Status.insertPending]
        omega
      · simp only [Status.insertPending]
        omega
  · have hcall : Status.handle_status st payload = (202, [], st) := by
      simp only [Status.handle_status, if_neg hno, hunreg, if_neg hlen]
    refine ⟨fun _ => hcall, fun hlt => absurd hlt hlen, fun hle => ?_⟩
    rw [hcall]
    exact hle

/-- Witness for C6 at a concrete state and request. -/
theorem C6_pending_buffer_bounded_witness :
    (Status.handle_status ⟨"i", [], []⟩ ⟨7, "i", "working", "m", none, "t"⟩).1 = 202 ∧
    ((Status.handle_status ⟨"i", [], []⟩
        ⟨7, "i", "working", "m", none, "t"⟩).2.2.pending_statuses).lookup 7 =
      some ⟨7, "i", "working", "m", none, "t"⟩ := by
  have h := C6_pending_buffer_bounded ⟨"i", [], []⟩
    ⟨7, "i", "working", "m", none, "t"⟩ rfl rfl
  exact ⟨(h.2.1 (by decide)).1, (h.2.1 (by decide)).2.2.1⟩

/-- C10: a status POST with matching instance id for a registered session
whose state string is outside the known set is not rejected: it responds
200 and emits one `session-status-changed` event whose status field is the
literal string `Unknown`, with the session id, project path, message and
prompt carried through. -/
theorem C10_unknown_state_maps_to_Unknown (st : Status.ServerState)
    (payload : Status.StatusRequest) (project_path : String)
    (hinst : payload.instance_id = st.instance_id)
    (hreg : st.session_projects.lookup payload.session_id = some project_path)
    (h1 : payload.state ≠ "idle") (h2 : payload.state ≠ "working")
    (h3 : payload.state ≠ "needs_input") (h4 : payload.state ≠ "finished")
    (h5 : payload.state ≠ "error") :
    Status.handle_status st payload =
      (200,
        [{ session_id := payload.session_id
           project_path := project_path
           status := "Unknown"
           message := payload.message
           needs_input_prompt := payload.needs_input_prompt }], st) := by
  have hno : ¬ (payload.instance_id ≠ st.instance_id) := not_ne_iff.mpr hinst
  simp only [Status.handle_status, if_neg hno, hreg]
  unfold Status.emit_status Status.statusOfState
  rw [if_neg h1, if_neg h2, if_neg h3, if_neg h4, if_neg h5]

theorem lookup_filter_of_key {α β : Type} [DecidableEq α]
    (m : List (α × β)) (q : α × β → Bool) (k : α) (h : ∀ v, q (k, v) = true) :
    (m.filter q).lookup k = m.lookup k := by
  induction m with
  | nil => rfl
  | cons p t ih =>
    obtain ⟨k1, v1⟩ := p
    rw [List.filter_cons]
    by_cases hk : k = k1
    · subst hk
      rw [h v1]
      simp
    · by_cases hq : q (k1, v1) = true
      · rw [hq]
        simp only [if_true]
        rw [lookup_cons_ne hk, lookup_cons_ne hk]
        exact ih
      · have hq' : q (k1, v1) = false := by
          revert hq
          cases q (k1, v1) <;> simp
        rw [hq']
        simp only [Bool.false_eq_true, if_false]
        rw [lookup_cons_ne hk]
        exact ih

theorem lookup_foldl_insertServer_ne (l : Mcp.ServerMap) (acc : Mcp.ServerMap)
    (k : String) (h : ∀ p ∈ l, p.1 ≠ k) :
    (l.foldl (fun acc p => Mcp.insertServer acc p.1 p.2) acc).lookup k =
      acc.lookup k := by
  induction l generalizing acc with
  | nil => rfl
  | cons p t ih =>
    simp only [List.foldl_cons]
    rw [ih _ (fun q hq => h q (List.mem_cons_of_mem p hq))]
    exact assocInsert_lookup_ne acc p.1 k p.2
      (fun hkk => h p (List.mem_cons_self p t) hkk.symm)

/-- C2 (counterexample): a user-authored entry named `maestro-helper` — not
the managed key `maestro-status` — is removed by `merge_with_existing`
because `should_remove_server` also strips every name starting with
`maestro-`, so the claim that every non-managed-key entry survives with an
identical value is false. -/
theorem C2_counterexample :
    ("maestro-helper" : String) ≠ "maestro-status" ∧
    (Mcp.merge_with_existing
        (some (.obj [("mcpServers",
          .obj [("maestro-helper", .str "user-authored")])])) [] 3).lookup
      "maestro-helper" = none := by
  refine ⟨by decide, ?_⟩
  rfl

/-- C2 (amended): entries whose name is not matched by the maestro
name-conventions — not the managed key `maestro-status`, not a legacy
`maestro-status-*` or `maestro-*` name, not the bare `maestro` — and whose
name is not among the newly added servers are present after both
`merge_with_existing` and the `remove_session_mcp_config` server rewrite
with values identical to before. -/
theorem C2_nonmanaged_entries_preserved (m new_servers : Mcp.ServerMap)
    (sid : Nat) (name : String)
    (h1 : name ≠ "maestro-status")
    (h2 : strStartsWith name "maestro-status-" = false)
    (h3 : strStartsWith name "maestro-" = false)
    (h4 : name ≠ "maestro")
    (h5 : ∀ p ∈ new_servers, p.1 ≠ name) :
    (Mcp.merge_with_existing (some (.obj [("mcpServers", .obj m)]))
        new_servers sid).lookup name = m.lookup name ∧
    (Mcp.remove_servers m).lookup name = m.lookup name := by
  have c1 : (name == "maestro-status") = false := by
    simpa using h1
  have c4 : (name == "maestro") = false := by
    simpa using h4
  have hsr : ∀ v, Mcp.should_remove_server name v sid = false := by
    intro v
    unfold Mcp.should_remove_server
    rw [c1, h2, h3, c4]
    rfl
  constructor
  · have hred : Mcp.merge_with_existing (some (.obj [("mcpServers", .obj m)]))
        new_servers sid =
        new_servers.foldl (fun acc p => Mcp.insertServer acc p.1 p.2)
          (m.filter (fun p => !(Mcp.should_remove_server p.1 p.2 sid))) := rfl
    rw [hred, lookup_foldl_insertServer_ne _ _ _ h5]
    exact lookup_filter_of_key m _ name (fun v => by rw [hsr v]; rfl)
  · unfold Mcp.remove_servers
    rw [lookup_filter_of_key _ _ name
      (fun v => by rw [h2, h3, c4]; rfl)]
    exact lookup_filter_of_key m _ name (fun v => by
      have : (name != "maestro-status") = true := by
        simpa using h1
      rw [this])

/-- Witness for C2 (amended) at a concrete map and name. -/
theorem C2_nonmanaged_entries_preserved_witness :
    (Mcp.merge_with_existing
        (some (.obj [("mcpServers",
          .obj [("user-server", .str "u"), ("maestro-status", .str "old")])]))
        [("maestro-status", .str "new")] 3).lookup "user-server" =
      some (.str "u") ∧
    (Mcp.remove_servers
        [("user-server", .str "u"), ("maestro-status", .str "old")]).lookup
      "user-server" = some (.str "u") := by
  have h := C2_nonmanaged_entries_preserved
    [("user-server", .str "u"), ("maestro-status", .str "old")]
    [("maestro-status", .str "new")] 3 "user-server"
    (by decide) (by decide) (by decide) (by decide)
    (by intro p hp; simp at hp; rw [hp]; decide)
  exact ⟨h.1.trans rfl, h.2.trans rfl⟩

theorem lookup_filter_key_ne {α β : Type} [DecidableEq α]
    (m : List (α × β)) (k : α) :
    (m.filter (fun p => p.1 != k)).lookup k = none := by
  induction m with
  | nil => rfl
  | cons p t ih =>
    obtain ⟨k1, v1⟩ := p
    rw [List.filter_cons]
    by_cases hk : k1 = k
    · subst hk
      simp only [bne_self_eq_false, Bool.false_eq_true, if_false]
      exact ih
    · have hb : (k1 != k) = true := by simpa using hk
      rw [hb]
      simp only [if_true]
      rw [lookup_cons_ne (fun h => hk h.symm)]
      exact ih

/-- C7: `kill_session` removes the session from the registry before any
OS signalling or cleanup — its effect trace starts with the registry
removal, followed by SIGTERM to the process group, conditional SIGKILL,
shutdown notification, handle drop and reader join.  An id absent from the
registry yields `SessionNotFound` with the registry unchanged and no
effects; once a kill has removed an id, a subsequent `kill_session`,
`write_stdin` or `resize_pty` on that id returns `SessionNotFound`. -/
theorem C7_kill_removes_before_signalling (reg : List (Nat × Pty.PtySession))
    (id : Nat) (g g' : Bool) (wfx : Pty.WriteFx) (rfx : Pty.ResizeFx) :
    (reg.lookup id = none →
      Pty.kill_session reg id g =
        (.error (Pty.PtyError.session_not_found id), reg, [])) ∧
    (∀ sess, reg.lookup id = some sess →
      (Pty.kill_session reg id g).1 = .ok () ∧
      (Pty.kill_session reg id g).2.2 =
        Pty.KillStep.removedFromRegistry id ::
          Pty.KillStep.sigtermGroup sess.pgid ::
            ((if g then [] else [Pty.KillStep.sigkillGroup sess.pgid]) ++
              [Pty.KillStep.notifyShutdown, Pty.KillStep.dropHandles,
                Pty.KillStep.joinReader]) ∧
      ((Pty.kill_session reg id g).2.1).lookup id = none ∧
      Pty.kill_session ((Pty.kill_session reg id g).2.1) id g' =
        (.error (Pty.PtyError.session_not_found id),
          (Pty.kill_session reg id g).2.1, []) ∧
      Pty.write_stdin ((Pty.kill_session reg id g).2.1) id wfx =
        .error (Pty.PtyError.session_not_found id) ∧
      Pty.resize_pty ((Pty.kill_session reg id g).2.1) id 24 80 rfx =
        .error (Pty.PtyError.session_not_found id)) := by
  constructor
  · intro h
    simp only [Pty.kill_session, h]
  · intro sess h
    have hred : Pty.kill_session reg id g =
        (.ok (), reg.filter (fun p => p.1 != id),
          Pty.KillStep.removedFromRegistry id ::
            Pty.KillStep.sigtermGroup sess.pgid ::
              ((if g then [] else [Pty.KillStep.sigkillGroup sess.pgid]) ++
                [Pty.KillStep.notifyShutdown, Pty.KillStep.dropHandles,
                  Pty.KillStep.joinReader])) := by
      simp only [Pty.kill_session, h, List.cons_append]
    have hnone : (reg.filter (fun p => p.1 != id)).lookup id = none :=
      lookup_filter_key_ne reg id
    rw [hred]
    refine ⟨rfl, rfl, hnone, ?_, ?_, ?_⟩
    · simp only [Pty.kill_session, hnone]
    · simp only [Pty.write_stdin, hnone]
    · simp only [Pty.resize_pty, hnone]

/-- Witness for C7 at a concrete registry. -/
theorem C7_kill_removes_before_signalling_witness :
    (Pty.kill_session [(1, ⟨42, 42⟩)] 1 true).1 = .ok () ∧
    (Pty.kill_session [(1, ⟨42, 42⟩)] 1 true).2.2 =
      [Pty.KillStep.removedFromRegistry 1, Pty.KillStep.sigtermGroup 42,
        Pty.KillStep.notifyShutdown, Pty.KillStep.dropHandles,
        Pty.KillStep.joinReader] ∧
    Pty.kill_session ((Pty.kill_session [(1, ⟨42, 42⟩)] 1 true).2.1) 1 false =
      (.error (Pty.PtyError.session_not_found 1),
        (Pty.kill_session [(1, ⟨42, 42⟩)] 1 true).2.1, []) ∧
    Pty.kill_session [(1, (⟨42, 42⟩ : Pty.PtySession))] 2 true =
      (.error (Pty.PtyError.session_not_found 2), [(1, ⟨42, 42⟩)], []) := by
  have h1 := (C7_kill_removes_before_signalling [(1, ⟨42, 42⟩)] 1 true false
    ⟨false, false, false⟩ ⟨false, false⟩).2 ⟨42, 42⟩ rfl
  have h2 := (C7_kill_removes_before_signalling [(1, ⟨42, 42⟩)] 2 true false
    ⟨false, false, false⟩ ⟨false, false⟩).1 rfl
  exact ⟨h1.1, h1.2.1, h1.2.2.2.1, h2⟩

theorem runMgr_ids (ops : List Pty.MgrOp) : ∀ st : Pty.Inner,
    (∀ i ∈ (Pty.runMgr st ops).2, st.next_id ≤ i) ∧
    (Pty.runMgr st ops).2.Pairwise (· < ·) ∧
    st.next_id ≤ (Pty.runMgr st ops).1.next_id := by
  induction ops with
  | nil =>
    intro st
    exact ⟨by simp [Pty.runMgr], by simp [Pty.runMgr], le_refl _⟩
  | cons op t ih =>
    intro st
    cases op with
    | spawn ok sess =>
      cases hc : Pty.checked_add st.next_id 1 with
      | none =>
        have hred : Pty.runMgr st (.spawn ok sess :: t) = Pty.runMgr st t := by
          simp only [Pty.runMgr, Pty.spawn_shell, hc]
        rw [hred]
        exact ih st
      | some n =>
        have hn : n = st.next_id + 1 := by
          unfold Pty.checked_add at hc
          split at hc
          · exact (Option.some_inj.mp hc).symm
          · exact absurd hc (by simp)
        cases ok with
        | true =>
          have hred : Pty.runMgr st (.spawn true sess :: t) =
              ((Pty.runMgr ⟨st.sessions ++ [(st.next_id, sess)], n⟩ t).1,
                st.next_id ::
                  (Pty.runMgr ⟨st.sessions ++ [(st.next_id, sess)], n⟩ t).2) := by
            simp only [Pty.runMgr, Pty.spawn_shell, hc, if_true]
          obtain ⟨ihlb, ihpw, ihmono⟩ := ih ⟨st.sessions ++ [(st.next_id, sess)], n⟩
          rw [hred]
          refine ⟨?_, ?_, ?_⟩
          · intro i hi
            rcases List.mem_cons.mp hi with hh | hh
            · omega
            · have := ihlb i hh
              simp only at this
              omega
          · refine List.Pairwise.cons ?_ ihpw
            intro j hj
            have := ihlb j hj
            simp only at this
            omega
          · simp only at ihmono ⊢
            omega
        | false =>
          have hred : Pty.runMgr st (.spawn false sess :: t) =
              Pty.runMgr { st with next_id := n } t := by
            simp only [Pty.runMgr, Pty.spawn_shell, hc, Bool.false_eq_true, if_false]
          obtain ⟨ihlb, ihpw, ihmono⟩ := ih { st with next_id := n }
          rw [hred]
          refine ⟨?_, ihpw, ?_⟩
          · intro i hi
            have := ihlb i hi
            simp only at this
            omega
          · simp only at ihmono ⊢
            omega
    | kill id g =>
      have hred : Pty.runMgr st (.kill id g :: t) =
          Pty.runMgr { st with sessions := (Pty.kill_session st.sessions id g).2.1 } t := by
        simp only [Pty.runMgr]
      obtain ⟨ihlb, ihpw, ihmono⟩ :=
        ih { st with sessions := (Pty.kill_session st.sessions id g).2.1 }
      rw [hred]
      exact ⟨fun i hi => ihlb i hi, ihpw, ihmono⟩

/-- C8: session ids are strictly increasing over the process lifetime —
along any sequence of spawn/kill operations from a fresh manager, the ids
returned by successful spawns are pairwise strictly increasing in order
(hence never reused, also after kills); and when the 32-bit counter cannot
be incremented further, `spawn_shell` fails with `IdOverflow` and neither
the registry nor the counter changes. -/
theorem C8_session_ids_monotonic :
    (∀ ops : List Pty.MgrOp,
      (Pty.runMgr Pty.ProcessManager.new ops).2.Pairwise (· < ·)) ∧
    (∀ (st : Pty.Inner) (ok : Bool) (sess : Pty.PtySession),
      st.next_id = Pty.U32_MAX →
        Pty.spawn_shell st ok sess = (.error Pty.PtyError.id_overflow, st)) := by
  constructor
  · intro ops
    exact (runMgr_ids ops Pty.ProcessManager.new).2.1
  · intro st ok sess h
    have hc : Pty.checked_add st.next_id 1 = none := by
      unfold Pty.checked_add
      rw [h]
      rw [if_neg (by unfold Pty.U32_MAX; omega)]
    simp only [Pty.spawn_shell, hc]

/-- Witness for C8: two successful spawns return increasing ids, and a
spawn at a saturated counter returns `IdOverflow` leaving state unchanged. -/
theorem C8_session_ids_monotonic_witness :
    (Pty.runMgr Pty.ProcessManager.new
        [.spawn true ⟨10, 10⟩, .kill 1 true, .spawn true ⟨11, 11⟩]).2.Pairwise
      (· < ·) ∧
    Pty.spawn_shell ⟨[], Pty.U32_MAX⟩ true ⟨1, 1⟩ =
      (.error Pty.PtyError.id_overflow, ⟨[], Pty.U32_MAX⟩) :=
  ⟨C8_session_ids_monotonic.1 _,
    C8_session_ids_monotonic.2 ⟨[], Pty.U32_MAX⟩ true ⟨1, 1⟩ rfl⟩

/-- C9 (counterexample): with the target branch checked out in a
single-branch repo, detaching HEAD failing (a step-4 failure), and branch
creation and worktree creation succeeding, `prepare_worktree_inner` returns
the created worktree path — not the project path — while the warning is
populated.  This refutes the claim that any step 4–6 failure yields the
project path as the working directory. -/
theorem C9_counterexample :
    Worktree.prepare_worktree_inner
        { list_branches := .ok [⟨"main", false, true⟩]
          worktree_list := .ok []
          current_branch := .ok "main"
          get_default_branch := .ok none
          checkout_branch := fun _ => .ok ()
          detach_head := .error "boom"
          create_branch := fun _ _ => .ok ()
          worktree_create := .ok "/wt/main" }
        "/repo" (some "main") =
      .ok ⟨"/wt/main", some "/wt/main", true, some "Could not detach HEAD: boom"⟩ ∧
    ("/wt/main" : String) ≠ "/repo" := by
  refine ⟨rfl, ?_⟩
  decide

/-- C9 (amended): `prepare_worktree_inner` never returns an error; a failure
in step 5 (ensuring the local branch) or step 6 (creating the worktree)
yields the project path as working directory with the warning populated; a
failure in step 4 (switching the main worktree off the target branch)
populates the warning but preparation continues, and when steps 5–6 then
succeed the result is the created worktree path with the warning still
populated. -/
theorem C9_prepare_always_usable (env : Worktree.GitEnv) (pp b : String)
    (hb : strIsEmpty b = false)
    (branches : List Worktree.BranchInfo)
    (hbr : (match env.list_branches with
      | .ok bs => bs
      | .error _ => []) = branches)
    (local_branch : String)
    (hloc : Worktree.resolve_local_branch_name b branches = local_branch)
    (hnoreuse : (match env.worktree_list with
      | .ok wts =>
        wts.find? (fun wt => !wt.is_main_worktree && wt.branch == some local_branch)
      | .error _ => none) = (none : Option Worktree.WorktreeInfo)) :
    (∀ (env2 : Worktree.GitEnv) (pp2 : String) (b2 : Option String),
      (Worktree.prepare_worktree_inner env2 pp2 b2).isOk = true) ∧
    (∀ e, Worktree.ensure_local_branch env b local_branch branches = .error e →
      Worktree.prepare_worktree_inner env pp (some b) =
        .ok ⟨pp, none, false,
          some ("Failed to create branch " ++ local_branch ++ ": " ++ e)⟩) ∧
    (∀ e, Worktree.ensure_local_branch env b local_branch branches = .ok () →
      env.worktree_create = .error e →
      Worktree.prepare_worktree_inner env pp (some b) =
        .ok ⟨pp, none, false, some ("Failed to create worktree: " ++ e)⟩) ∧
    (∀ w wtp,
      (if (match env.current_branch with
            | .ok c => some c
            | .error _ => none) = some local_branch then
        match Worktree.get_fallback_branch env local_branch with
        | some fallback =>
          match env.checkout_branch fallback with
          | .ok _ => none
          | .error e =>
            some ("Could not switch main repo from " ++ local_branch ++ ": " ++ e)
        | none =>
          match env.detach_head with
          | .ok _ => none
          | .error e => some ("Could not detach HEAD: " ++ e)
      else none) = some w →
      Worktree.ensure_local_branch env b local_branch branches = .ok () →
      env.worktree_create = .ok wtp →
      Worktree.prepare_worktree_inner env pp (some b) =
        .ok ⟨wtp, some wtp, true, some w⟩) := by
  refine ⟨?_, ?_, ?_, ?_⟩
  · intro env2 pp2 b2
    cases b2 with
    | none => rfl
    | some s =>
      simp only [Worktree.prepare_worktree_inner]
      split
      · rfl
      · split
        · rfl
        · split
          · rfl
          · split
            · rfl
            · rfl
  · intro e hens
    simp only [Worktree.prepare_worktree_inner, hb, Bool.false_eq_true, if_false,
      hbr, hloc, hnoreuse, hens]
  · intro e hens hcr
    simp only [Worktree.prepare_worktree_inner, hb, Bool.false_eq_true, if_false,
      hbr, hloc, hnoreuse, hens, hcr]
  · intro w wtp hw hens hcr
    simp only [Worktree.prepare_worktree_inner, hb, Bool.false_eq_true, if_false,
      hbr, hloc, hnoreuse, hens, hcr, hw]

/-- Witness for C9 (amended): one run where ensuring the branch fails (step
5), and one where switching the main repo fails (step 4) but the worktree
is still created. -/
theorem C9_prepare_always_usable_witness :
    Worktree.prepare_worktree_inner
        { list_branches := .ok []
          worktree_list := .ok []
          current_branch := .error "nohead"
          get_default_branch := .ok none
          checkout_branch := fun _ => .ok ()
          detach_head := .ok ()
          create_branch := fun _ _ => .error "cb"
          worktree_create := .ok "/wt" }
        "/repo" (some "feat") =
      .ok ⟨"/repo", none, false, some "Failed to create branch feat: cb"⟩ ∧
    Worktree.prepare_worktree_inner
        { list_branches := .ok [⟨"main", false, true⟩, ⟨"master", false, false⟩]
          worktree_list := .ok []
          current_branch := .ok "main"
          get_default_branch := .ok none
          checkout_branch := fun _ => .error "co"
          detach_head := .ok ()
          create_branch := fun _ _ => .ok ()
          worktree_create := .ok "/wt" }
        "/repo" (some "main") =
      .ok ⟨"/wt", some "/wt", true,
        some "Could not switch main repo from main: co"⟩ := by
  constructor
  · exact (C9_prepare_always_usable _ "/repo" "feat" rfl [] rfl "feat" rfl
      rfl).2.1 "cb" rfl
  · exact ((C9_prepare_always_usable _ "/repo" "main" rfl
      [⟨"main", false, true⟩, ⟨"master", false, false⟩] rfl "main" rfl
      rfl).2.2.2 "Could not switch main repo from main: co" "/wt") rfl rfl rfl

/-- Witness for C10 at a concrete state and request with state `booting`. -/
theorem C10_unknown_state_maps_to_Unknown_witness :
    Status.handle_status ⟨"i", [(3, "/proj")], []⟩
        ⟨3, "i", "booting", "hello", some "q", "t"⟩ =
      (200,
        [{ session_id := 3
           project_path := "/proj"
           status := "Unknown"
           message := "hello"
           needs_input_prompt := some "q" }],
        ⟨"i", [(3, "/proj")], []⟩) :=
  C10_unknown_state_maps_to_Unknown ⟨"i", [(3, "/proj")], []⟩
    ⟨3, "i", "booting", "hello", some "q", "t"⟩ "/proj" rfl rfl
    (by decide) (by decide) (by decide) (by decide) (by decide)

end Maestro
